import Mathlib

/-!
# Verification of the aOa prediction-engine core

A shallow embedding, in Lean 4, of the parts of the aOa repository that the
frozen claims talk about:

* `src/src/ranking/scorer.py` — `Scorer.record_access`,
  `Scorer.calculate_confidence`, `Scorer.get_ranked_files`;
* `src/src/ranking/redis_client.py` — the fixed key prefixes and the sorted-set
  operations used by the scorer (Redis sorted sets are modelled as association
  lists member → rational score; `ZREVRANGE` sorts by score descending with
  ties in reverse lexicographic member order, as Redis does);
* `src/src/ranking/session_parser.py` — `build_transition_matrix`,
  `sync_to_redis`, `predict_next`;
* `src/services/sequence/sequence_tracker.py` — `SequenceTracker.record_access`
  and its helpers;
* `src/services/index/indexer.py` — `IntentIndex` (record / lookups /
  `get_stats`), the `/predict/check` and `/predict/finalize` evaluator
  endpoints, and the scorer-consulting slice of the `/predict` endpoint.

Numbers: timestamps, counters and stored Redis scores are exact in the source
(integers, or integer-valued floats), so they are modelled as `ℚ`/`ℤ`.  The
query-time normalizations (`exp`-decay, `log1p`) are transcendental, so the
computed composite scores and confidences live in `ℝ`.  Python's `round(x, n)`
is modelled as round-half-up at `n` decimals (`pyRound`); CPython rounds
half-to-even, which differs only on exact midpoints and is likewise monotone,
and no statement below depends on the midpoint convention.

Python dictionaries are insertion-ordered; they are modelled as association
lists where updating an existing key keeps its position and a new key is
appended.  Python's `sorted(..., reverse=True)` is a stable descending sort;
it is modelled by the stable insertion sort `pySortRevBy`, which agrees with
any stable descending sort extensionally.
-/

namespace AOA

/-! ## Insertion-ordered dictionaries (Python `dict` / Redis hash) -/

/-- Lookup in an insertion-ordered association list. -/
def dget {β : Type} (d : List (String × β)) (k : String) : Option β :=
  match d with
  | [] => none
  | kv :: rest => if kv.1 = k then some kv.2 else dget rest k

/-- `d[k] = v`: update in place if the key exists, else append (Python dict
assignment semantics, insertion order preserved). -/
def dset {β : Type} (d : List (String × β)) (k : String) (v : β) :
    List (String × β) :=
  match d with
  | [] => [(k, v)]
  | kv :: rest =>
    if kv.1 = k then (k, v) :: rest else kv :: dset rest k v

/-- Increment an integer-valued entry by `n`, treating a missing key as 0
(`defaultdict(int)` update, Redis `HINCRBY`). -/
def dincr (d : List (String × Int)) (k : String) (n : Int) :
    List (String × Int) :=
  dset d k ((dget d k).getD 0 + n)

theorem dget_dset_eq {β : Type} (d : List (String × β)) (k : String) (v : β) :
    dget (dset d k v) k = some v := by
  induction d with
  | nil => simp [dget, dset]
  | cons kv rest ih =>
    by_cases h : kv.1 = k
    · simp [dset, h, dget]
    · simp only [dset, if_neg h]
      simpa [dget, h] using ih

theorem dget_dset_ne {β : Type} (d : List (String × β)) (k k₂ : String)
    (v : β) (hne : k₂ ≠ k) : dget (dset d k v) k₂ = dget d k₂ := by
  induction d with
  | nil => simp [dget, dset, (Ne.symm hne)]
  | cons kv rest ih =>
    by_cases h : kv.1 = k
    · subst h
      simp [dset, dget, (Ne.symm hne)]
    · simp only [dset, if_neg h]
      by_cases h2 : kv.1 = k₂
      · simp [dget, h2]
      · simpa [dget, h2] using ih

theorem dget_dincr_eq (d : List (String × Int)) (k : String) (n : Int) :
    dget (dincr d k n) k = some ((dget d k).getD 0 + n) :=
  dget_dset_eq d k _

theorem dget_dincr_ne (d : List (String × Int)) (k k₂ : String) (n : Int)
    (hne : k₂ ≠ k) : dget (dincr d k n) k₂ = dget d k₂ :=
  dget_dset_ne d k k₂ _ hne

/-! ## Python rounding and truncation -/

/-- Python's `round(x, n)` for a real argument, modelled as round-half-up at
`n` decimal places.  CPython uses round-half-to-even; the two differ only on
exact decimal midpoints, and both are monotone non-decreasing, which is all
any statement below uses. -/
noncomputable def pyRound (n : ℕ) (x : ℝ) : ℝ :=
  (⌊x * (10 : ℝ) ^ n + 1 / 2⌋ : ℤ) / (10 : ℝ) ^ n

/-- `round(q, n)` for rational arguments (used where the source only ever
holds integer-valued quantities times exact decimal constants). -/
def pyRoundQ (n : ℕ) (q : ℚ) : ℚ :=
  (⌊q * (10 : ℚ) ^ n + 1 / 2⌋ : ℤ) / (10 : ℚ) ^ n

/-- Python's `int(x)` on a rational: truncation toward zero. -/
def pyInt (q : ℚ) : ℤ :=
  if 0 ≤ q then ⌊q⌋ else -⌊-q⌋

theorem pyRound_mono (n : ℕ) {x y : ℝ} (h : x ≤ y) :
    pyRound n x ≤ pyRound n y := by
  unfold pyRound
  have hp : (0 : ℝ) < (10 : ℝ) ^ n := by positivity
  have hfl : (⌊x * (10 : ℝ) ^ n + 1 / 2⌋ : ℤ) ≤ ⌊y * (10 : ℝ) ^ n + 1 / 2⌋ := by
    apply Int.floor_mono
    nlinarith
  gcongr

/-! ## Stable descending sort (Python `sorted(..., key=k, reverse=True)`) -/

/-- Insert `x` into a descending-sorted list, after every element with a
strictly larger key and before the first element whose key is ≤ `k x`
(so elements with equal keys keep their original relative order). -/
def pyInsertRevBy {α β : Type} [LinearOrder β] (k : α → β) (x : α) :
    List α → List α
  | [] => [x]
  | y :: ys => if k x < k y then y :: pyInsertRevBy k x ys else x :: y :: ys

/-- Stable descending insertion sort; extensionally equal to CPython's
`sorted(..., key=k, reverse=True)` (which is also stable descending). -/
def pySortRevBy {α β : Type} [LinearOrder β] (k : α → β) : List α → List α
  | [] => []
  | x :: xs => pyInsertRevBy k x (pySortRevBy k xs)

theorem mem_pyInsertRevBy {α β : Type} [LinearOrder β] (k : α → β) (x a : α)
    (l : List α) : a ∈ pyInsertRevBy k x l ↔ a = x ∨ a ∈ l := by
  induction l with
  | nil => simp [pyInsertRevBy]
  | cons y ys ih =>
    by_cases h : k x < k y
    · rw [pyInsertRevBy, if_pos h]
      simp only [List.mem_cons, ih]
      tauto
    · rw [pyInsertRevBy, if_neg h]
      simp only [List.mem_cons]

theorem pyInsertRevBy_sorted {α β : Type} [LinearOrder β] (k : α → β) (x : α)
    (l : List α) (hl : l.Pairwise (fun a b => k b ≤ k a)) :
    (pyInsertRevBy k x l).Pairwise (fun a b => k b ≤ k a) := by
  induction l with
  | nil => simp [pyInsertRevBy]
  | cons y ys ih =>
    rcases List.pairwise_cons.mp hl with ⟨hy, hys⟩
    by_cases h : k x < k y
    · rw [pyInsertRevBy, if_pos h]
      refine List.pairwise_cons.mpr ⟨?_, ih hys⟩
      intro a ha
      rcases (mem_pyInsertRevBy k x a ys).mp ha with rfl | hmem
      · exact le_of_lt h
      · exact hy a hmem
    · rw [pyInsertRevBy, if_neg h]
      refine List.pairwise_cons.mpr ⟨?_, hl⟩
      intro a ha
      rcases List.mem_cons.mp ha with rfl | hmem
      · exact le_of_not_lt h
      · exact le_trans (hy a hmem) (le_of_not_lt h)

theorem pySortRevBy_sorted {α β : Type} [LinearOrder β] (k : α → β)
    (l : List α) : (pySortRevBy k l).Pairwise (fun a b => k b ≤ k a) := by
  induction l with
  | nil => simp [pySortRevBy]
  | cons x xs ih => exact pyInsertRevBy_sorted k x _ ih

theorem pySortRevBy_perm {α β : Type} [LinearOrder β] (k : α → β)
    (l : List α) : (pySortRevBy k l).Perm l := by
  induction l with
  | nil => simp [pySortRevBy]
  | cons x xs ih =>
    have hins : ∀ (m : List α), (pyInsertRevBy k x m).Perm (x :: m) := by
      intro m
      induction m with
      | nil => simp [pyInsertRevBy]
      | cons y ys ihm =>
        by_cases h : k x < k y
        · rw [pyInsertRevBy, if_pos h]
          exact (ihm.cons y).trans (List.Perm.swap x y ys)
        · rw [pyInsertRevBy, if_neg h]

    exact (hins (pySortRevBy k xs)).trans (ih.cons x)

/-- Lexicographic order on character data (Unicode code points); agrees
with Redis's byte-wise member ordering on ASCII member names, and reduces
definitionally (Lean's `String.ltb` iterator implementation does not). -/
def charListLt : List Char → List Char → Bool
  | [], [] => false
  | [], _ :: _ => true
  | _ :: _, [] => false
  | a :: as, b :: bs =>
    if a < b then true else if b < a then false else charListLt as bs

def strLt (a b : String) : Bool := charListLt a.data b.data

/-- `pyInsertRevBy` with a Bool comparator `later x y` = "x sorts after y"
(used for the computable `ZREVRANGE` orderings). -/
def insertRevIf {α : Type} (later : α → α → Bool) (x : α) :
    List α → List α
  | [] => [x]
  | y :: ys => if later x y then y :: insertRevIf later x ys else x :: y :: ys

/-- Stable descending sort with a Bool comparator. -/
def sortRevIf {α : Type} (later : α → α → Bool) : List α → List α
  | [] => []
  | x :: xs => insertRevIf later x (sortRevIf later xs)

/-- The `ZREVRANGE` entry order: score descending, equal scores in reverse
lexicographic member order; `later e₁ e₂` holds when `e₁` sorts after
`e₂`. -/
def zrevLater (e₁ e₂ : String × ℚ) : Bool :=
  decide (e₁.2 < e₂.2) || (decide (e₁.2 = e₂.2) && strLt e₁.1 e₂.1)

theorem sublist_pyInsertRevBy {α β : Type} [LinearOrder β] (k : α → β) (a : α)
    (s : List α) : s.Sublist (pyInsertRevBy k a s) := by
  induction s with
  | nil => simp [pyInsertRevBy]
  | cons z zs ih =>
    by_cases h : k a < k z
    · rw [pyInsertRevBy, if_pos h]
      exact ih.cons₂ z
    · rw [pyInsertRevBy, if_neg h]
      exact (List.Sublist.refl (z :: zs)).cons a

theorem pair_sublist_pyInsertRevBy {α β : Type} [LinearOrder β] (k : α → β)
    (a y : α) (s : List α) (hy : y ∈ s) (hk : k y ≤ k a) :
    [a, y].Sublist (pyInsertRevBy k a s) := by
  induction s with
  | nil => cases hy
  | cons z zs ih =>
    by_cases h : k a < k z
    · rw [pyInsertRevBy, if_pos h]
      rcases List.mem_cons.mp hy with rfl | hmem
      · exact absurd (lt_of_le_of_lt hk h) (lt_irrefl (k y))
      · exact (ih hmem).cons z
    · rw [pyInsertRevBy, if_neg h]
      exact (List.singleton_sublist.mpr hy).cons₂ a

/-- Stability of `pySortRevBy`: a pair whose keys are already in descending
(or equal) order keeps its relative order in the sorted output.  In
particular elements with equal keys stay in input order, as for Python's
stable `sorted`. -/
theorem pySortRevBy_stable {α β : Type} [LinearOrder β] (k : α → β)
    (l : List α) (x y : α) (hxy : [x, y].Sublist l) (hk : k y ≤ k x) :
    [x, y].Sublist (pySortRevBy k l) := by
  induction l with
  | nil => cases hxy
  | cons a t ih =>
    rw [pySortRevBy]
    cases hxy with
    | cons _ htail =>
      exact (ih htail).trans (sublist_pyInsertRevBy k a _)
    | cons₂ _ htail =>
      have hy : y ∈ pySortRevBy k t :=
        (pySortRevBy_perm k t).mem_iff.mpr (List.singleton_sublist.mp htail)
      exact pair_sublist_pyInsertRevBy k x y _ hy hk

/-! ## Redis key-value store

The slice of Redis used by `src/src/ranking/redis_client.py`: sorted sets
(member → score association lists; `ZREVRANGE` sorts by score descending with
ties in reverse lexicographic member order, which the lexicographic key
`toLex (score, member)` under the descending sort produces) and plain string
keys holding numbers (`SETNX`/`GET`).  Scores stored by the code are integer
timestamps and counters, hence `ℚ` is exact. -/

structure RedisStore where
  zsets : List (String × List (String × ℚ))
  strs : List (String × ℚ)
deriving DecidableEq, Repr

def emptyStore : RedisStore := ⟨[], []⟩

def RedisStore.zsetOf (st : RedisStore) (key : String) : List (String × ℚ) :=
  (dget st.zsets key).getD []

/-- `ZADD key score member` (1-element form used by `RedisClient.zadd`). -/
def RedisStore.zadd (st : RedisStore) (key : String) (score : ℚ)
    (member : String) : RedisStore :=
  { st with zsets := dset st.zsets key (dset (st.zsetOf key) member score) }

/-- `ZSCORE key member`. -/
def RedisStore.zscore (st : RedisStore) (key member : String) : Option ℚ :=
  dget (st.zsetOf key) member

/-- `ZINCRBY key increment member` (missing member counts as score 0). -/
def RedisStore.zincrby (st : RedisStore) (key : String) (increment : ℚ)
    (member : String) : RedisStore :=
  st.zadd key (((st.zscore key member).getD 0) + increment) member

/-- `ZREVRANGE key 0 -1 WITHSCORES`: all members, score descending, ties in
reverse lexicographic member order. -/
def RedisStore.zrevrangeAll (st : RedisStore) (key : String) :
    List (String × ℚ) :=
  sortRevIf zrevLater (st.zsetOf key)

/-- `ZREVRANGE key 0 (n-1) WITHSCORES`. -/
def RedisStore.zrevrangeTake (st : RedisStore) (key : String) (n : ℕ) :
    List (String × ℚ) :=
  (st.zrevrangeAll key).take n

/-- `SETNX key value` (used for `aoa:first_seen:*`). -/
def RedisStore.setnx (st : RedisStore) (key : String) (value : ℚ) :
    RedisStore :=
  if (dget st.strs key).isSome then st
  else { st with strs := dset st.strs key value }

/-- `GET key` for the plain numeric string keys. -/
def RedisStore.getStr (st : RedisStore) (key : String) : Option ℚ :=
  dget st.strs key

/-! ## `RedisClient` key prefixes (`src/src/ranking/redis_client.py`)

The prefixes are module-level constants: they contain no project component,
so every project's accesses share the same sorted sets. -/

namespace RedisClient

def PREFIX_RECENCY : String := "aoa:recency"

def PREFIX_FREQUENCY : String := "aoa:frequency"

def PREFIX_TAG : String := "aoa:tag"

end RedisClient

/-! ## `Scorer` (`src/src/ranking/scorer.py`) -/

namespace Scorer

/-- The scorer's weight triple (`self.weights`); `DEFAULT_WEIGHTS` is
recency 0.4, frequency 0.3, tag 0.3. -/
structure Weights where
  recency : ℝ
  frequency : ℝ
  tag : ℝ

noncomputable def DEFAULT_WEIGHTS : Weights := ⟨0.4, 0.3, 0.3⟩

/-- `RECENCY_HALF_LIFE = 3600`. -/
def RECENCY_HALF_LIFE : ℚ := 3600

/-- `Scorer.record_access(file_path, tags, timestamp)`; state effect only
(the returned scores dict reads back the state without changing it).
`ts = timestamp or int(time.time())`: a `None` — or `0`, since Python's
`or` tests falsiness — timestamp falls back to `now`. -/
def record_access (st : RedisStore) (file_path : String) (tags : List String)
    (timestamp : Option ℤ) (now : ℤ) : RedisStore :=
  let ts : ℤ := match timestamp with
    | some t => if t = 0 then now else t
    | none => now
  let st1 := st.zadd RedisClient.PREFIX_RECENCY (ts : ℚ) file_path
  let st2 := st1.zincrby RedisClient.PREFIX_FREQUENCY 1 file_path
  let st3 := st2.setnx ("aoa:first_seen:" ++ file_path) (ts : ℚ)
  tags.foldl
    (fun s tag => s.zincrby (RedisClient.PREFIX_TAG ++ ":" ++ tag) 1 file_path)
    st3

/-- `Scorer.calculate_confidence(composite, access_count, time_span_hours)`:
`base · (0.7 · evidence + 0.3 · stability)`, rounded to 4 decimals.
`math.log1p(x)` is `Real.log (1 + x)`; `MIN_ACCESSES_FULL_CONFIDENCE = 20`,
`MIN_HOURS_FULL_CONFIDENCE = 24`, `EVIDENCE_WEIGHT = 0.7`,
`STABILITY_WEIGHT = 0.3`. -/
noncomputable def calculate_confidence (composite : ℝ) (access_count : ℤ)
    (time_span_hours : ℝ) : ℝ :=
  let base := composite / 100
  let evidence :=
    min 1 (0.3 + 0.7 * Real.log (1 + (access_count : ℝ)) / Real.log (1 + 20))
  let stability := min 1 (0.5 + 0.5 * time_span_hours / 24)
  pyRound 4 (base * (0.7 * evidence + 0.3 * stability))

/-- One value of the `file_scores` dict built by `get_ranked_files`:
`{'recency': …, 'frequency': …, 'tags': {…}}`. -/
structure ScoresRec where
  recency : ℝ
  frequency : ℝ
  tags : List (String × ℝ)

/-- `max(generator, default=1)` over the scores of a sorted-set listing. -/
def pyMaxD (l : List ℚ) (d : ℚ) : ℚ :=
  match l with
  | [] => d
  | x :: xs => xs.foldl max x

/-- The `file_scores` dict of `get_ranked_files` after the recency,
frequency and (when `tags` is non-empty) per-tag loops.  Insertion order —
recency-set files first (in `ZREVRANGE` order), then frequency-only files,
then tag-only files — is preserved by `dset`. -/
noncomputable def buildFileScores (st : RedisStore) (tags : List String)
    (now : ℚ) : List (String × ScoresRec) :=
  let recency_files := st.zrevrangeAll RedisClient.PREFIX_RECENCY
  let fs1 : List (String × ScoresRec) := recency_files.foldl
    (fun d e =>
      dset d e.1
        ⟨100 * Real.exp (-(((now - e.2 : ℚ) : ℝ)) / ((RECENCY_HALF_LIFE : ℚ) : ℝ)),
          0, []⟩)
    []
  let frequency_files := st.zrevrangeAll RedisClient.PREFIX_FREQUENCY
  let max_freq := pyMaxD (frequency_files.map (fun e => e.2)) 1
  let fs2 := frequency_files.foldl
    (fun d e =>
      let freq_score : ℝ :=
        if max_freq > 0 then ((e.2 / max_freq : ℚ) : ℝ) * 100 else 0
      let cur := (dget d e.1).getD ⟨0, 0, []⟩
      dset d e.1 { cur with frequency := freq_score })
    fs1
  if tags ≠ [] then
    tags.foldl
      (fun d tag =>
        let tag_files := st.zrevrangeAll (RedisClient.PREFIX_TAG ++ ":" ++ tag)
        let max_tag := pyMaxD (tag_files.map (fun e => e.2)) 1
        tag_files.foldl
          (fun d e =>
            let normalized : ℝ :=
              if max_tag > 0 then ((e.2 / max_tag : ℚ) : ℝ) * 100 else 0
            let cur := (dget d e.1).getD ⟨0, 0, []⟩
            dset d e.1 { cur with tags := dset cur.tags tag normalized })
          d)
      fs2
  else fs2

/-- The composite-score computation of `get_ranked_files` for one file:
`recency·w_r + frequency·w_f`, plus, when tags were supplied and the file
has tag scores, `Σ_t tags.get(t, 0) · (w_tag / len(tags))`. -/
noncomputable def composite (tags : List String) (w : Weights)
    (sc : ScoresRec) : ℝ :=
  let c := sc.recency * w.recency + sc.frequency * w.frequency
  if tags ≠ [] ∧ sc.tags ≠ [] then
    let tag_weight := w.tag / (tags.length : ℝ)
    tags.foldl (fun acc tag => acc + ((dget sc.tags tag).getD 0) * tag_weight) c
  else c

/-- `sorted(file_scores.items(), key=…['composite'], reverse=True)[:limit]`:
the stable descending sort by composite, truncated. -/
noncomputable def rankedPairs (st : RedisStore) (tags : List String)
    (limit : ℕ) (now : ℚ) (w : Weights) : List (String × ScoresRec × ℝ) :=
  let file_scores := buildFileScores st tags now
  if file_scores.isEmpty then []
  else
    let scored := file_scores.map (fun e => (e.1, e.2, composite tags w e.2))
    (pySortRevBy (fun e => e.2.2) scored).take limit

/-- One entry of the `get_ranked_files` response. -/
structure RankedEntry where
  file : String
  score : ℝ
  confidence : ℝ
  recency : ℝ
  frequency : ℝ
  tagScores : Option (List (String × ℝ))

/-- Builds a response entry: `raw_freq = get_frequency_score(file) or 1`
(`None` and `0.0` both fall back to 1), `time_span_hours` from
`first_seen` (falsy `0` gives 0), confidence from the unrounded composite. -/
noncomputable def mkEntry (st : RedisStore) (tags : List String) (now : ℚ)
    (e : String × ScoresRec × ℝ) : RankedEntry :=
  let raw_freq : ℚ := match st.zscore RedisClient.PREFIX_FREQUENCY e.1 with
    | some v => if v = 0 then 1 else v
    | none => 1
  let time_span_hours : ℝ := match st.getStr ("aoa:first_seen:" ++ e.1) with
    | some fs => if fs = 0 then 0 else ((now - fs : ℚ) : ℝ) / 3600
    | none => 0
  { file := e.1
    score := pyRound 4 e.2.2
    confidence := calculate_confidence e.2.2 (pyInt raw_freq) time_span_hours
    recency := pyRound 2 e.2.1.recency
    frequency := pyRound 2 e.2.1.frequency
    tagScores :=
      if tags ≠ [] ∧ e.2.1.tags ≠ [] then
        some (e.2.1.tags.map (fun p => (p.1, pyRound 2 p.2)))
      else none }

/-- `Scorer.get_ranked_files(tags, limit)` at time `now` with weights `w`:
the ranked, truncated entries in sort order. -/
noncomputable def get_ranked_files (st : RedisStore) (tags : List String)
    (limit : ℕ) (now : ℚ) (w : Weights) : List RankedEntry :=
  (rankedPairs st tags limit now w).map (mkEntry st tags now)

end Scorer

/-- Python's `str.startswith` (Lean's `String.startsWith`), implemented on
the character data so that concrete instances reduce definitionally. -/
def strStartsWith (s p : String) : Bool := p.data.isPrefixOf s.data

/-! ## `SessionLogParser` (`src/src/ranking/session_parser.py`)

Session parsing (`parse_session` / `extract_file_reads`) reduces a session
log to its ordered list of `Read` file paths; the embedding starts from
those per-session read sequences. -/

namespace SessionLogParser

/-- `PREFIX_TRANSITION = "aoa:transition"`. -/
def PREFIX_TRANSITION : String := "aoa:transition"

/-- `normalize_path(file_path, project_root)`: strip the project root and a
leading slash, else return the path unchanged. -/
def normalize_path (file_path : String)
    (project_root : String := "/home/corey/aOa") : String :=
  if strStartsWith file_path project_root then
    let rel := file_path.drop project_root.length
    if strStartsWith rel "/" then rel.drop 1 else rel
  else file_path

/-- The consecutive pairs `(files[i], files[i+1])` of a read sequence. -/
def adjacentPairs (files : List String) : List (String × String) :=
  files.zip files.tail

/-- `SessionLogParser.build_transition_matrix(normalize)`: for each session's
read sequence, for each consecutive pair `(A, B)` with `A ≠ B`, increment
`transitions[A][B]` by 1 (self-transitions skipped). -/
def build_transition_matrix (sessions : List (List String))
    (normalize : Bool := true) : List (String × List (String × Int)) :=
  sessions.foldl
    (fun transitions files =>
      let files := if normalize then files.map (normalize_path ·) else files
      (adjacentPairs files).foldl
        (fun tr p =>
          if p.1 ≠ p.2 then dset tr p.1 (dincr ((dget tr p.1).getD []) p.2 1)
          else tr)
        transitions)
    []

/-- The stored count of target `b` under source `a` (0 when absent). -/
def transCount (tr : List (String × List (String × Int))) (a b : String) :
    Int :=
  match dget tr a with
  | some d => (dget d b).getD 0
  | none => 0

/-- `SessionLogParser.sync_to_redis`: write each count to the sorted set
`aoa:transition:{from_file}` with the target as member and count as score. -/
def sync_to_redis (st : RedisStore)
    (transitions : List (String × List (String × Int))) : RedisStore :=
  transitions.foldl
    (fun st ft =>
      ft.2.foldl
        (fun st tc =>
          st.zadd (PREFIX_TRANSITION ++ ":" ++ ft.1) (tc.2 : ℚ) tc.1)
        st)
    st

/-- `SessionLogParser.predict_next(current_file, limit)`: top-`limit`
transitions by count, converted to probabilities by dividing by the sum of
the returned counts. -/
def predict_next (st : RedisStore) (current_file : String) (limit : ℕ := 5) :
    List (String × ℚ) :=
  let key := PREFIX_TRANSITION ++ ":" ++ current_file
  let results := st.zrevrangeTake key limit
  if results = [] then []
  else
    let total := (results.map (fun e => e.2)).sum
    if total = 0 then []
    else results.map (fun e => (e.1, e.2 / total))

end SessionLogParser

/-! ## `IntentIndex` (`src/services/index/indexer.py`, lines 1368–1504)

Per-project bidirectional tag↔file maps plus the timeline.  Python `set`s
are modelled as duplicate-free lists (`addToSet`); only membership is ever
used.  `defaultdict` nesting means reading an absent project yields empty
structures. -/

/-- An intent record (`IntentRecord` dataclass); `file_sizes` is an
insertion-ordered dict. -/
structure IntentRecord where
  timestamp : ℤ
  session_id : String
  tool : String
  files : List String
  tags : List String
  tool_use_id : Option String
  project_id : Option String
  file_sizes : List (String × ℤ)
  output_size : Option ℤ
deriving DecidableEq, Repr

/-- Python `set.add`. -/
def addToSet (s : List String) (x : String) : List String :=
  if x ∈ s then s else s ++ [x]

/-- Per-project slice of the intent index's state. -/
structure ProjIntent where
  tag_to_files : List (String × List String)
  file_to_tags : List (String × List String)
  timeline : List IntentRecord
  session_intents : List (String × List IntentRecord)
deriving DecidableEq, Repr

def ProjIntent.empty : ProjIntent := ⟨[], [], [], []⟩

/-- The whole `IntentIndex`: all structures nested by project key. -/
structure IntentIndex where
  projects : List (String × ProjIntent)
deriving DecidableEq, Repr

def IntentIndex.empty : IntentIndex := ⟨[]⟩

namespace IntentIndex

/-- `DEFAULT_PROJECT = "_global"`. -/
def DEFAULT_PROJECT : String := "_global"

/-- `_project_key(project_id)`: the id when non-empty, else the global
bucket (`None` and `""` are both falsy). -/
def project_key (project_id : Option String) : String :=
  match project_id with
  | some p => if p = "" then DEFAULT_PROJECT else p
  | none => DEFAULT_PROJECT

def getProj (idx : IntentIndex) (proj : String) : ProjIntent :=
  (dget idx.projects proj).getD ProjIntent.empty

/-- The body of the bidirectional-index update loop:
`tag_to_files[proj][tag].add(f); file_to_tags[proj][f].add(tag)`. -/
def addPair (p : ProjIntent) (tag f : String) : ProjIntent :=
  { p with
    tag_to_files :=
      dset p.tag_to_files tag (addToSet ((dget p.tag_to_files tag).getD []) f)
    file_to_tags :=
      dset p.file_to_tags f (addToSet ((dget p.file_to_tags f).getD []) tag) }

/-- `IntentIndex.record(tool, files, tags, session_id, tool_use_id,
project_id, file_sizes, output_size)` at time `now`. -/
def record (idx : IntentIndex) (tool : String) (files : List String)
    (tags : List String) (session_id : String)
    (tool_use_id : Option String := none) (project_id : Option String := none)
    (file_sizes : List (String × ℤ) := []) (output_size : Option ℤ := none)
    (now : ℤ := 0) : IntentIndex :=
  let proj := project_key project_id
  let r : IntentRecord :=
    ⟨now, session_id, tool, files, tags, tool_use_id, project_id, file_sizes,
      output_size⟩
  let p := idx.getProj proj
  let p := { p with
    timeline := p.timeline ++ [r]
    session_intents :=
      dset p.session_intents session_id
        (((dget p.session_intents session_id).getD []) ++ [r]) }
  let p := tags.foldl
    (fun p tag => files.foldl (fun p f => addPair p tag f) p)
    p
  ⟨dset idx.projects proj p⟩

/-- `files_for_tag(tag, project_id)` (exact lookup). -/
def files_for_tag (idx : IntentIndex) (tag : String)
    (project_id : Option String := none) : List String :=
  (dget (idx.getProj (project_key project_id)).tag_to_files tag).getD []

/-- The exact-match branch of `tags_for_file(file, project_id)` (the method
falls back to suffix/substring matching when the exact key is absent). -/
def tags_for_file_exact (idx : IntentIndex) (file : String)
    (project_id : Option String := none) : List String :=
  (dget (idx.getProj (project_key project_id)).file_to_tags file).getD []

/-- `recent(since, limit, project_id)`: the project's newest `limit` records,
newest first, optionally filtered by `since` (falsy `since` skips the
filter). -/
def recent (idx : IntentIndex) (since : Option ℤ) (limit : ℕ)
    (project_id : Option String := none) : List IntentRecord :=
  let records := (idx.getProj (project_key project_id)).timeline
  let records := match since with
    | some s => if s = 0 then records else records.filter (fun r => s ≤ r.timestamp)
    | none => records
  -- records[-limit:] — for limit = 0 Python's -0 slice keeps the whole list
  let records := if limit = 0 then records
    else records.drop (records.length - limit)
  records.reverse

/-- The savings block computed by `get_stats`. -/
structure Savings where
  tokens : ℤ
  time_sec : ℚ
  baseline : ℤ
  actual : ℤ
  measured_records : ℤ
deriving DecidableEq, Repr

/-- One record's contribution to the savings loop: the first file whose size
is positive contributes `size // 4` to the baseline and `output_size // 4`
to the actual count, then the loop breaks; records without a positive
output size or without file sizes are skipped entirely. -/
def recordContribution (r : IntentRecord) : Option (ℤ × ℤ) :=
  match r.output_size with
  | some o =>
    if o > 0 ∧ r.file_sizes ≠ [] then
      match r.file_sizes.find? (fun fs => fs.2 > 0) with
      | some fs => some (Int.fdiv fs.2 4, Int.fdiv o 4)
      | none => none
    else none
  | none => none

/-- The savings part of `IntentIndex.get_stats(project_id)`:
`tokens_saved = max(0, Σ baseline − Σ actual)` and
`time_sec = round(tokens_saved · 0.0075, 1)`. -/
def get_stats_savings (idx : IntentIndex) (project_id : Option String := none) :
    Savings :=
  let timeline := (idx.getProj (project_key project_id)).timeline
  let acc := timeline.foldl
    (fun (acc : ℤ × ℤ × ℤ) r =>
      match recordContribution r with
      | some c => (acc.1 + c.1, acc.2.1 + c.2, acc.2.2 + 1)
      | none => acc)
    (0, 0, 0)
  let tokens_saved := max 0 (acc.1 - acc.2.1)
  -- time_sec = round(tokens_saved * 0.0075, 1); 0.0075 = 3/400
  ⟨tokens_saved, pyRoundQ 1 ((tokens_saved : ℚ) * (3 / 400)), acc.1, acc.2.1,
    acc.2.2⟩

end IntentIndex

/-! ## `SequenceTracker` (`src/services/sequence/sequence_tracker.py`)

Redis schema (all keys carry the tracker's `project_id`):
`sequences:{pid}:{sid}` lists of JSON-encoded `FileAccess` values (modelled
directly as values; `to_json`/`from_json` round-trip), head = newest;
`transition_counts:{pid}:{from}` hashes target → count;
`transition_timing:{pid}:{from}:{to}` lists of time deltas;
`transitions:{pid}:{from}` sorted sets target → probability. -/

/-- `TIME_WINDOW_SECONDS = 300`. -/
def TIME_WINDOW_SECONDS : ℚ := 300

/-- `MIN_TRANSITION_COUNT = 2`. -/
def MIN_TRANSITION_COUNT : Int := 2

/-- `MAX_TRANSITIONS_PER_FILE = 20`. -/
def MAX_TRANSITIONS_PER_FILE : ℕ := 20

/-- The `FileAccess` dataclass. -/
structure FileAccess where
  file_path : String
  timestamp : ℚ
  tool : String
  session_id : String
deriving DecidableEq, Repr

/-- The tracker-visible Redis state. -/
structure SeqState where
  sequences : List (String × List FileAccess)
  counts : List (String × List (String × Int))
  timing : List (String × List ℚ)
  trans : List (String × List (String × ℚ))
deriving DecidableEq, Repr

def SeqState.empty : SeqState := ⟨[], [], [], []⟩

namespace SequenceTracker

/-- `_update_probabilities(from_file)`: recompute `P(to | from)` from the
raw counts, keep only targets with count ≥ `MIN_TRANSITION_COUNT`, prune to
the top `MAX_TRANSITIONS_PER_FILE` by rank
(`ZREMRANGEBYRANK key 0 -(MAX+1)` keeps the highest-scored 20). -/
def update_probabilities (st : SeqState) (pid from_file : String) : SeqState :=
  let count_key := "transition_counts:" ++ pid ++ ":" ++ from_file
  let counts := (dget st.counts count_key).getD []
  if counts = [] then st
  else
    let total := (counts.map (fun c => c.2)).sum
    if total = 0 then st
    else
      let transitions_key := "transitions:" ++ pid ++ ":" ++ from_file
      let z := counts.foldl
        (fun z tc =>
          if tc.2 ≥ MIN_TRANSITION_COUNT then
            dset z tc.1 ((tc.2 : ℚ) / (total : ℚ))
          else z)
        []
      let zAsc := (sortRevIf zrevLater z).reverse
      let z := zAsc.drop (zAsc.length - MAX_TRANSITIONS_PER_FILE)
      { st with trans := dset st.trans transitions_key z }

/-- `_record_transition(from_file, to_file, time_delta, session_id)`:
skip self-transitions; else increment the count hash, push the timing delta
(ring of 100), and recompute probabilities. -/
def record_transition (st : SeqState) (pid from_file to_file : String)
    (time_delta : ℚ) : SeqState :=
  if from_file = to_file then st
  else
    let count_key := "transition_counts:" ++ pid ++ ":" ++ from_file
    let st := { st with
      counts :=
        dset st.counts count_key
          (dincr ((dget st.counts count_key).getD []) to_file 1) }
    let timing_key :=
      "transition_timing:" ++ pid ++ ":" ++ from_file ++ ":" ++ to_file
    let st := { st with
      timing :=
        dset st.timing timing_key
          ((time_delta :: (dget st.timing timing_key).getD []).take 100) }
    update_probabilities st pid from_file

/-- `_get_recent_accesses(sequence_key, current_time)`: the last 10 pushed
accesses (`LRANGE 0 9`) within the time window. -/
def get_recent_accesses (st : SeqState) (sequence_key : String)
    (current_time : ℚ) : List FileAccess :=
  (((dget st.sequences sequence_key).getD []).take 10).filter
    (fun a => current_time - a.timestamp ≤ TIME_WINDOW_SECONDS)

/-- `SequenceTracker.record_access(file_path, tool, session_id)` at time
`now`: guarded against empty, `pattern:` and `cmd:` paths; records a
transition from every recent access within the window, then pushes this
access (ring of 100). -/
def record_access (st : SeqState) (pid : String)
    (file_path tool session_id : String) (now : ℚ) : SeqState :=
  if file_path = "" ∨ strStartsWith file_path "pattern:" ∨
      strStartsWith file_path "cmd:" then st
  else
    let access : FileAccess := ⟨file_path, now, tool, session_id⟩
    let sequence_key := "sequences:" ++ pid ++ ":" ++ session_id
    let recent := get_recent_accesses st sequence_key now
    let st := recent.foldl
      (fun st prev =>
        let time_delta := now - prev.timestamp
        if time_delta ≤ TIME_WINDOW_SECONDS then
          record_transition st pid prev.file_path file_path time_delta
        else st)
      st
    { st with
      sequences :=
        dset st.sequences sequence_key
          ((access :: (dget st.sequences sequence_key).getD []).take 100) }

/-- The stored transition count of target `b` under source `a`. -/
def seqTransCount (st : SeqState) (pid a b : String) : Option Int :=
  dget ((dget st.counts ("transition_counts:" ++ pid ++ ":" ++ a)).getD []) b

end SequenceTracker

/-! ## Rolling evaluator (`/predict/log`, `/predict/check`,
`/predict/finalize` in `src/services/index/indexer.py`)

The relevant Redis keys, as typed fields: `preds` holds the 60-second
`aoa:prediction:{session}:{ms}` JSON values (absence = expired or never
logged); `session_preds` the `aoa:predictions:{session}` lists;
`rolling` the `aoa:rolling:predictions` sorted set (member = prediction key,
score = timestamp); `rolling_hit` the `'hit'` field of
`aoa:rolling:data:{prediction_key}` — `""` pending, `"1"` hit, `"0"` miss,
absence = hash expired or never written. -/

/-- `ROLLING_WINDOW_SECONDS = 24 * 3600`. -/
def ROLLING_WINDOW_SECONDS : ℚ := 24 * 3600

/-- The prediction JSON stored under `aoa:prediction:{session}:{ms}`
(fields the check endpoint reads). -/
structure PredData where
  predicted_files : List String
  confidence : ℚ
deriving DecidableEq, Repr

structure EvalState where
  preds : List (String × PredData)
  session_preds : List (String × List String)
  rolling : List (String × ℚ)
  rolling_hit : List (String × String)
  hits : ℤ
  misses : ℤ
  proj_hits : List (String × ℤ)
  proj_misses : List (String × ℤ)
deriving DecidableEq, Repr

def EvalState.empty : EvalState := ⟨[], [], [], [], 0, 0, [], []⟩

namespace Evaluator

/-- `/predict/log`: store the prediction JSON, push its key on the session
list, add it to the rolling sorted set, write `hit = ""` (pending) in the
rolling data hash, and trim rolling entries older than the window. -/
def log_prediction (st : EvalState) (session_id : String)
    (predicted_files : List String) (confidence : ℚ) (timestamp : ℚ)
    (timestamp_ms : ℤ) : EvalState :=
  if predicted_files = [] then st
  else
    let prediction_key :=
      "aoa:prediction:" ++ session_id ++ ":" ++ toString timestamp_ms
    let session_predictions_key := "aoa:predictions:" ++ session_id
    let st := { st with
      preds := dset st.preds prediction_key ⟨predicted_files, confidence⟩
      session_preds :=
        dset st.session_preds session_predictions_key
          (prediction_key :: (dget st.session_preds session_predictions_key).getD [])
      rolling := dset st.rolling prediction_key timestamp
      rolling_hit :=
        dset st.rolling_hit ("aoa:rolling:data:" ++ prediction_key) "" }
    let cutoff := timestamp - ROLLING_WINDOW_SECONDS
    { st with
      rolling := st.rolling.filter (fun e => ¬ (0 ≤ e.2 ∧ e.2 ≤ cutoff)) }

/-- The hit-counter increments of `/predict/check`:
`INCR aoa:metrics:hits` and, with a project id, the project-scoped
counter. -/
def bumpHitCounters (st : EvalState) (project_id : String) : EvalState :=
  let st := { st with hits := st.hits + 1 }
  if project_id ≠ "" then
    { st with
      proj_hits :=
        dset st.proj_hits ("aoa:" ++ project_id ++ ":metrics:hits")
          (((dget st.proj_hits
            ("aoa:" ++ project_id ++ ":metrics:hits")).getD 0) + 1) }
  else st

/-- The miss-counter increments of `/predict/check`. -/
def bumpMissCounters (st : EvalState) (project_id : String) : EvalState :=
  let st := { st with misses := st.misses + 1 }
  if project_id ≠ "" then
    { st with
      proj_misses :=
        dset st.proj_misses ("aoa:" ++ project_id ++ ":metrics:misses")
          (((dget st.proj_misses
            ("aoa:" ++ project_id ++ ":metrics:misses")).getD 0) + 1) }
  else st

/-- Mark the rolling `hit` field of prediction `key` as `"1"` if it is
still pending (`hget` then guarded `hset`). -/
def markHit (st : EvalState) (key : String) : EvalState :=
  match dget st.rolling_hit ("aoa:rolling:data:" ++ key) with
  | some current_hit =>
    if current_hit = "" then
      { st with
        rolling_hit := dset st.rolling_hit ("aoa:rolling:data:" ++ key) "1" }
    else st
  | none => st

/-- Mark the rolling `hit` field of prediction `key` as `"0"` if it is
still pending (the body of the finalize loop). -/
def markMiss (st : EvalState) (key : String) : EvalState :=
  match dget st.rolling_hit ("aoa:rolling:data:" ++ key) with
  | some h =>
    if h = "" then
      { st with
        rolling_hit := dset st.rolling_hit ("aoa:rolling:data:" ++ key) "0" }
    else st
  | none => st

/-- The loop of `/predict/check` over the session's recent prediction keys:
on the first key whose (unexpired) prediction contains `file_path`, record
the hit counters and flip the rolling `hit` field to `"1"` if it is still
pending, then stop; if no key matches, record a miss. -/
def checkLoop (st : EvalState) (keys : List String)
    (file_path project_id : String) : EvalState :=
  match keys with
  | [] => bumpMissCounters st project_id
  | k :: rest =>
    match dget st.preds k with
    | some pred =>
      if file_path ∈ pred.predicted_files then
        markHit (bumpHitCounters st project_id) k
      else checkLoop st rest file_path project_id
    | none => checkLoop st rest file_path project_id

/-- `/predict/check` (`check_prediction_hit`): look at the session's last 11
logged prediction keys (`LRANGE 0 10`). -/
def check_prediction_hit (st : EvalState) (session_id file_path : String)
    (project_id : String := "") : EvalState :=
  if file_path = "" then st
  else
    let keys :=
      ((dget st.session_preds ("aoa:predictions:" ++ session_id)).getD []).take 11
    checkLoop st keys file_path project_id

/-- `/predict/finalize` (`finalize_predictions`): every prediction key in the
rolling set with timestamp ≤ `now − max_age_seconds` whose rolling `hit`
field is still pending is flipped to `"0"` (miss). -/
def finalize_predictions (st : EvalState) (max_age_seconds : ℚ) (now : ℚ) :
    EvalState :=
  let cutoff := now - max_age_seconds
  let stale :=
    (st.rolling.filter (fun e => 0 ≤ e.2 ∧ e.2 ≤ cutoff)).map (fun e => e.1)
  stale.foldl (fun st k => markMiss st k) st

/-- The `hit` flag of a prediction batch `k`: the `'hit'` field of
`aoa:rolling:data:{k}`. -/
def hitFlag (st : EvalState) (k : String) : Option String :=
  dget st.rolling_hit ("aoa:rolling:data:" ++ k)

end Evaluator

/-! ## The `/predict` endpoint (`predict_files`,
`src/services/index/indexer.py` lines 3374–3528)

The endpoint takes `tags`, `keywords`, `limit`, `snippet_lines` and a
trigger `file` — and no project parameter of any kind.  `all_tags` is the
deduplicated union `list(set(tags + keywords))` (Python set order is
unspecified; the embedding takes the resulting list as input).  Snippet
extraction only attaches text to each returned entry and never changes
which files are returned or their order, so the embedding returns the
`(path, confidence)` pairs. -/

namespace Predict

def host_root : String := "/home/corey/aOa"

/-- `CODEBASE_ROOT` environment default. -/
def project_root : String := "/codebase"

/-- The transition-probability lookup for a trigger file: `predict_next` on
the parameter as given, retried with the host- or container-root prefix
stripped, each result stored under both its own path and (for relative
paths) the host-absolute variant. -/
def transitionPreds (st : RedisStore) (file_param : String) :
    List (String × ℚ) :=
  let tr := SessionLogParser.predict_next st file_param 10
  let tr :=
    if tr = [] ∧ strStartsWith file_param host_root then
      SessionLogParser.predict_next st (file_param.drop (host_root.length + 1)) 10
    else if tr = [] ∧ strStartsWith file_param project_root then
      SessionLogParser.predict_next st (file_param.drop (project_root.length + 1)) 10
    else tr
  tr.foldl
    (fun d e =>
      let d := dset d e.1 e.2
      if ¬ strStartsWith e.1 "/" then dset d (host_root ++ "/" ++ e.1) e.2 else d)
    []

/-- `predict_files` without the snippet text: ranked files from the scorer
(limit·2), transition boost `min(1, confidence + prob·0.3)` for files also
predicted from the trigger, insertion of unseen transition predictions with
probability ≥ 0.1 at confidence `0.8·prob`, final stable re-sort by the
3-decimal-rounded confidence, truncation to `limit`. -/
noncomputable def predict_files (st : RedisStore) (all_tags : List String)
    (limit : ℕ) (file_param : String) (now : ℚ) (w : Scorer.Weights) :
    List (String × ℝ) :=
  let results := Scorer.get_ranked_files st all_tags (limit * 2) now w
  let transition_preds : List (String × ℚ) :=
    if file_param ≠ "" then transitionPreds st file_param else []
  let transition_boost : ℝ := if file_param ≠ "" then 0.3 else 0
  let files : List (String × ℝ) := (results.take limit).map
    (fun r =>
      let confidence := r.confidence
      let confidence := match dget transition_preds r.file with
        | some prob => min 1 (confidence + (prob : ℝ) * transition_boost)
        | none => confidence
      (r.file, pyRound 3 confidence))
  let seen_paths := (results.take limit).map (fun r => r.file)
  let files :=
    if transition_preds ≠ [] ∧ files.length < limit then
      files ++
        (((pySortRevBy (fun e => e.2) transition_preds).filter
            (fun e => e.1 ∉ seen_paths ∧ (1 : ℚ) / 10 ≤ e.2)).take
          (limit - files.length)).map
          (fun e => (e.1, pyRound 3 ((e.2 : ℝ) * 0.8)))
    else files
  (pySortRevBy (fun e => e.2) files).take limit

end Predict

/-! ## The service composition (`src/services/index/indexer.py` endpoints)

What a running indexer service holds: the registered project ids (the
project registry), the per-project `IntentIndex`, and the single Redis
database shared by the scorer, the transition model and the evaluator.
`POST /rank/record` (called by the capture hooks for every file access,
whatever project is being worked on) reaches `Scorer.record_access`, whose
signature has no project parameter; `GET /predict` likewise reads no
project parameter. -/

structure SysState where
  projects : List String
  intent : IntentIndex
  kv : RedisStore

def SysState.empty : SysState := ⟨[], IntentIndex.empty, emptyStore⟩

/-- `POST /project` — register a project id. -/
def SysState.register_project (s : SysState) (project_id : String) : SysState :=
  { s with projects := addToSet s.projects project_id }

/-- `POST /intent` — append an intent record under `project_id`. -/
def SysState.post_intent (s : SysState) (tool : String) (files : List String)
    (tags : List String) (session_id : String)
    (project_id : Option String) (now : ℤ) : SysState :=
  { s with
    intent := s.intent.record tool files tags session_id none project_id [] none now }

/-- `POST /rank/record` — body `{file, tags}`; no project id, no timestamp:
`scorer.record_access(file_path, tags=tags)`. -/
def SysState.post_rank_record (s : SysState) (file : String)
    (tags : List String) (now : ℤ) : SysState :=
  { s with kv := Scorer.record_access s.kv file tags none now }

/-- `GET /predict` — returns the predicted `(path, confidence)` list; reads
only the shared Redis state. -/
noncomputable def SysState.predict (s : SysState) (all_tags : List String)
    (limit : ℕ) (file_param : String) (now : ℚ) (w : Scorer.Weights) :
    List (String × ℝ) :=
  Predict.predict_files s.kv all_tags limit file_param now w

/-- The files recorded under project id `p` in the intent graph: every file
of every timeline record of that project's bucket. -/
def SysState.projectFiles (s : SysState) (p : String) : List String :=
  ((s.intent.getProj p).timeline.map (fun r => r.files)).flatten

/-! ## Helper lemmas about the string keys -/

theorem string_append_left_cancel {a b c : String} (h : a ++ b = a ++ c) :
    b = c := by
  apply String.ext
  have hd : a.data ++ b.data = a.data ++ c.data := by
    rw [← String.data_append, ← String.data_append, h]
  exact List.append_cancel_left hd

theorem string_append_ne_of_nth {p s : String} {i : ℕ} {c₁ c₂ : Char}
    (hp : p.data[i]? = some c₁) (hs : s.data[i]? = some c₂) (hcc : c₁ ≠ c₂)
    (t : String) : p ++ t ≠ s := by
  intro h
  have hd : p.data ++ t.data = s.data := by rw [← String.data_append, h]
  have hi : i < p.data.length := (List.getElem?_eq_some.mp hp).1
  have hleft : (p.data ++ t.data)[i]? = some c₁ := by
    rw [List.getElem?_append, if_pos hi]
    exact hp
  rw [hd, hs] at hleft
  exact hcc (Option.some.inj hleft.symm)

theorem tagKey_ne_recency (tag : String) :
    RedisClient.PREFIX_TAG ++ ":" ++ tag ≠ RedisClient.PREFIX_RECENCY := by
  exact @string_append_ne_of_nth (RedisClient.PREFIX_TAG ++ ":")
    RedisClient.PREFIX_RECENCY 4 't' 'r' (by decide) (by decide) (by decide)
    tag

theorem tagKey_ne_frequency (tag : String) :
    RedisClient.PREFIX_TAG ++ ":" ++ tag ≠ RedisClient.PREFIX_FREQUENCY := by
  exact @string_append_ne_of_nth (RedisClient.PREFIX_TAG ++ ":")
    RedisClient.PREFIX_FREQUENCY 4 't' 'f' (by decide) (by decide) (by decide)
    tag

theorem tagKey_inj {a b : String}
    (h : RedisClient.PREFIX_TAG ++ ":" ++ a = RedisClient.PREFIX_TAG ++ ":" ++ b) :
    a = b :=
  string_append_left_cancel h

theorem mem_addToSet {s : List String} {x y : String} :
    y ∈ addToSet s x ↔ y ∈ s ∨ y = x := by
  unfold addToSet
  by_cases h : x ∈ s
  · simp only [if_pos h]
    constructor
    · exact Or.inl
    · rintro (hy | rfl)
      · exact hy
      · exact h
  · simp [if_neg h]

/-! ## Elementary effect lemmas for the Redis store -/

namespace RedisStore

theorem zscore_zadd_self (st : RedisStore) (k : String) (sc : ℚ) (m : String) :
    (st.zadd k sc m).zscore k m = some sc := by
  simp [zadd, zscore, zsetOf, dget_dset_eq]

theorem zscore_zadd_ne_member (st : RedisStore) (k : String) (sc : ℚ)
    {m m₂ : String} (h : m₂ ≠ m) :
    (st.zadd k sc m).zscore k m₂ = st.zscore k m₂ := by
  simp [zadd, zscore, zsetOf, dget_dset_eq, dget_dset_ne _ _ _ _ h]

theorem zscore_zadd_ne_key (st : RedisStore) {k k₂ : String} (sc : ℚ)
    (m m₂ : String) (h : k₂ ≠ k) :
    (st.zadd k sc m).zscore k₂ m₂ = st.zscore k₂ m₂ := by
  simp [zadd, zscore, zsetOf, dget_dset_ne _ _ _ _ h]

theorem getStr_zadd (st : RedisStore) (k : String) (sc : ℚ) (m k₂ : String) :
    (st.zadd k sc m).getStr k₂ = st.getStr k₂ := rfl

theorem zscore_setnx (st : RedisStore) (k : String) (v : ℚ) (k₂ m : String) :
    (st.setnx k v).zscore k₂ m = st.zscore k₂ m := by
  unfold setnx
  split <;> rfl

theorem getStr_setnx_self (st : RedisStore) (k : String) (v : ℚ) :
    (st.setnx k v).getStr k = some ((st.getStr k).getD v) := by
  unfold setnx getStr
  rcases h : dget st.strs k with _ | w
  · simp [h, dget_dset_eq]
  · simp [h]

theorem getStr_setnx_ne (st : RedisStore) (k : String) (v : ℚ) {k₂ : String}
    (h : k₂ ≠ k) : (st.setnx k v).getStr k₂ = st.getStr k₂ := by
  unfold setnx getStr
  split
  · rfl
  · simp [dget_dset_ne _ _ _ _ h]

theorem zscore_zincrby_self (st : RedisStore) (k : String) (i : ℚ)
    (m : String) :
    (st.zincrby k i m).zscore k m = some ((st.zscore k m).getD 0 + i) :=
  zscore_zadd_self st k _ m

theorem zscore_zincrby_ne_member (st : RedisStore) (k : String) (i : ℚ)
    {m m₂ : String} (h : m₂ ≠ m) :
    (st.zincrby k i m).zscore k m₂ = st.zscore k m₂ :=
  zscore_zadd_ne_member st k _ h

theorem zscore_zincrby_ne_key (st : RedisStore) {k k₂ : String} (i : ℚ)
    (m m₂ : String) (h : k₂ ≠ k) :
    (st.zincrby k i m).zscore k₂ m₂ = st.zscore k₂ m₂ :=
  zscore_zadd_ne_key st _ m m₂ h

theorem getStr_zincrby (st : RedisStore) (k : String) (i : ℚ) (m k₂ : String) :
    (st.zincrby k i m).getStr k₂ = st.getStr k₂ := rfl

end RedisStore

/-! ## C10 — guard on `SequenceTracker.record_access` -/

/-- C10: a call to `SequenceTracker.record_access` whose file path is empty
or begins with `pattern:` or `cmd:` returns without changing any state: no
sequence entry, transition count, timing ring or probability set is
touched. -/
theorem C10_record_access_guard (st : SeqState) (pid : String)
    (file_path tool session_id : String) (now : ℚ)
    (h : file_path = "" ∨ strStartsWith file_path "pattern:" ∨
      strStartsWith file_path "cmd:") :
    SequenceTracker.record_access st pid file_path tool session_id now = st := by
  unfold SequenceTracker.record_access
  rw [if_pos h]

/-- Witness for C10: a `pattern:` path leaves the empty state unchanged. -/
theorem C10_record_access_guard_witness :
    SequenceTracker.record_access SeqState.empty "proj" "pattern:auth"
      "Grep" "S1" 42 = SeqState.empty :=
  C10_record_access_guard SeqState.empty "proj" "pattern:auth" "Grep" "S1" 42
    (Or.inr (Or.inl (by decide)))

/-! ## C8 — savings computation in `get_stats` -/

theorem get_stats_fold_characterization (l : List IntentRecord)
    (acc : ℤ × ℤ × ℤ) :
    l.foldl
      (fun (acc : ℤ × ℤ × ℤ) r =>
        match IntentIndex.recordContribution r with
        | some c => (acc.1 + c.1, acc.2.1 + c.2, acc.2.2 + 1)
        | none => acc)
      acc =
    (acc.1 + ((l.filterMap IntentIndex.recordContribution).map
        (fun c => c.1)).sum,
      acc.2.1 + ((l.filterMap IntentIndex.recordContribution).map
        (fun c => c.2)).sum,
      acc.2.2 + (l.filterMap IntentIndex.recordContribution).length) := by
  induction l generalizing acc with
  | nil => simp
  | cons r rest ih =>
    rcases hr : IntentIndex.recordContribution r with _ | c
    · simp only [List.foldl_cons, hr, List.filterMap_cons, ih]
    · simp only [List.foldl_cons, hr, List.filterMap_cons, ih, Prod.mk.injEq,
        List.map_cons, List.sum_cons, List.length_cons]
      exact ⟨by ring, by ring, by omega⟩

/-- C8 (amended): over exactly the records with a positive output size and a
file-size dict containing a positive entry, the baseline counts
`first positive file size // 4` (one file per record, not the sum of the
record's sizes), the actual counts `output_size // 4` once per such record,
tokens saved are `max(0, baseline − actual)`, and the reported time saved is
`round(0.0075 · saved, 1)` seconds. -/
theorem C8_get_stats_savings (idx : IntentIndex) (pid : Option String) :
    (idx.get_stats_savings pid).baseline =
      (((idx.getProj (IntentIndex.project_key pid)).timeline.filterMap
          IntentIndex.recordContribution).map (fun c => c.1)).sum ∧
    (idx.get_stats_savings pid).actual =
      (((idx.getProj (IntentIndex.project_key pid)).timeline.filterMap
          IntentIndex.recordContribution).map (fun c => c.2)).sum ∧
    (idx.get_stats_savings pid).measured_records =
      ((idx.getProj (IntentIndex.project_key pid)).timeline.filterMap
          IntentIndex.recordContribution).length ∧
    (idx.get_stats_savings pid).tokens =
      max 0 ((idx.get_stats_savings pid).baseline -
        (idx.get_stats_savings pid).actual) ∧
    (idx.get_stats_savings pid).time_sec =
      pyRoundQ 1 (((idx.get_stats_savings pid).tokens : ℚ) * (3 / 400)) := by
  unfold IntentIndex.get_stats_savings
  simp only [get_stats_fold_characterization]
  refine ⟨by simp, by simp, by simp, by simp, by simp⟩

/-- The single intent record of the C8 counterexample: two files of 8 and 12
bytes, output size 4. -/
def idxC8 : IntentIndex :=
  IntentIndex.empty.record "Read" ["a.py", "b.py"] [] "S" none (some "P")
    [("a.py", 8), ("b.py", 12)] (some 4) 0

/-- C8 counterexample: the claim says baseline tokens are the sum of the
record's file sizes divided by 4 — `(8 + 12) / 4 = 5` here — but the code
only counts the first positive-size file: `8 // 4 = 2`. -/
theorem C8_counterexample :
    (idxC8.get_stats_savings (some "P")).baseline = 2 ∧
    (idxC8.get_stats_savings (some "P")).baseline ≠ ((8 + 12) / 4 : ℤ) := by
  decide

/-! ## C2 — symmetry of the intent graph's tag↔file maps -/

/-- Symmetry of one project bucket: `f ∈ files[t] ⇔ t ∈ tags[f]`, with the
file→tags side read as an exact-key lookup. -/
def ProjIntent.Symm (p : ProjIntent) : Prop :=
  ∀ t f, f ∈ (dget p.tag_to_files t).getD [] ↔ t ∈ (dget p.file_to_tags f).getD []

/-- Symmetry of the whole intent index, every project bucket at once. -/
def IntentIndex.Symm (idx : IntentIndex) : Prop :=
  ∀ proj, (idx.getProj proj).Symm

theorem projIntent_empty_symm : ProjIntent.empty.Symm := by
  intro t f
  simp [ProjIntent.empty, dget]

theorem intentIndex_empty_symm : IntentIndex.empty.Symm := by
  intro proj
  simpa [IntentIndex.empty, IntentIndex.getProj, dget] using projIntent_empty_symm

theorem addPair_symm {p : ProjIntent} (hp : p.Symm) (tag f : String) :
    (IntentIndex.addPair p tag f).Symm := by
  intro t g
  unfold IntentIndex.addPair
  by_cases ht : t = tag <;> by_cases hg : g = f
  · subst ht; subst hg
    simp [dget_dset_eq, mem_addToSet]
  · subst ht
    simp only [dget_dset_eq, Option.getD_some, mem_addToSet,
      dget_dset_ne _ _ _ _ hg]
    constructor
    · rintro (hmem | rfl)
      · exact (hp t g).mp hmem
      · exact absurd rfl hg
    · intro hmem
      exact Or.inl ((hp t g).mpr hmem)
  · subst hg
    simp only [dget_dset_eq, Option.getD_some, mem_addToSet,
      dget_dset_ne _ _ _ _ ht]
    constructor
    · intro hmem
      exact Or.inl ((hp t g).mp hmem)
    · rintro (hmem | rfl)
      · exact (hp t g).mpr hmem
      · exact absurd rfl ht
  · simp only [dget_dset_ne _ _ _ _ ht, dget_dset_ne _ _ _ _ hg]
    exact hp t g

theorem filesFold_symm (files : List String) (tag : String) :
    ∀ {p : ProjIntent}, p.Symm →
      (files.foldl (fun p f => IntentIndex.addPair p tag f) p).Symm := by
  induction files with
  | nil => intro p hp; simpa using hp
  | cons f rest ih =>
    intro p hp
    simpa using ih (addPair_symm hp tag f)

theorem tagsFold_symm (tags : List String) (files : List String) :
    ∀ {p : ProjIntent}, p.Symm →
      (tags.foldl (fun p tag => files.foldl (fun p f => IntentIndex.addPair p tag f) p)
        p).Symm := by
  induction tags with
  | nil => intro p hp; simpa using hp
  | cons tag rest ih =>
    intro p hp
    simpa using ih (filesFold_symm files tag hp)

/-- C2: the intent graph's tag→files and file→tags maps are symmetric — for
every project, tag and file, `f ∈ FilesForTag(P,t) ⇔ t ∈ TagsForFile(P,f)`
(exact lookup) — the empty index is symmetric, and every `record` operation
preserves the symmetry. -/
theorem C2_intent_record_symm :
    IntentIndex.empty.Symm ∧
    ∀ (idx : IntentIndex), idx.Symm →
      ∀ (tool : String) (files tags : List String) (session_id : String)
        (tool_use_id project_id : Option String)
        (file_sizes : List (String × ℤ)) (output_size : Option ℤ) (now : ℤ),
        (idx.record tool files tags session_id tool_use_id project_id
          file_sizes output_size now).Symm := by
  refine ⟨intentIndex_empty_symm, ?_⟩
  intro idx hidx tool files tags session_id tool_use_id project_id file_sizes
    output_size now
  intro proj
  unfold IntentIndex.record IntentIndex.getProj
  simp only
  by_cases hproj : proj = IntentIndex.project_key project_id
  · subst hproj
    rw [dget_dset_eq]
    simp only [Option.getD_some]
    apply tagsFold_symm
    intro t f
    exact hidx _ t f
  · rw [dget_dset_ne _ _ _ _ hproj]
    exact hidx proj

/-- Witness for C2: recording a concrete intent on the empty index yields a
symmetric index. -/
theorem C2_intent_record_symm_witness :
    (IntentIndex.empty.record "Edit" ["/p/auth/login.py"]
      ["#authentication", "#python"] "S1" none (some "P") [] none 7).Symm :=
  C2_intent_record_symm.2 IntentIndex.empty C2_intent_record_symm.1 "Edit"
    ["/p/auth/login.py"] ["#authentication", "#python"] "S1" none (some "P")
    [] none 7

/-! ## C3 — the sequence-learning scenario -/

/-- The scenario's single session of ordered reads. -/
def c3Sessions : List (List String) :=
  [["a.py", "b.py", "a.py", "c.py", "b.py", "c.py"]]

/-- The Redis state after ingesting the scenario session through
`build_transition_matrix` and `sync_to_redis`. -/
def c3Store : RedisStore :=
  SessionLogParser.sync_to_redis emptyStore
    (SessionLogParser.build_transition_matrix c3Sessions)

theorem c3_predict_a :
    SessionLogParser.predict_next c3Store "a.py" 5 =
      [("c.py", 1 / 2), ("b.py", 1 / 2)] := by
  have h1 : c3Store.zrevrangeTake "aoa:transition:a.py" 5 =
      [("c.py", 1), ("b.py", 1)] := by decide
  have happ : "aoa:transition" ++ ":" ++ "a.py" = "aoa:transition:a.py" := by
    decide
  norm_num [SessionLogParser.predict_next, SessionLogParser.PREFIX_TRANSITION,
    happ, h1]
  intro h
  exact absurd h (List.cons_ne_nil _ _)

theorem c3_predict_b :
    SessionLogParser.predict_next c3Store "b.py" 5 =
      [("c.py", 1 / 2), ("a.py", 1 / 2)] := by
  have h1 : c3Store.zrevrangeTake "aoa:transition:b.py" 5 =
      [("c.py", 1), ("a.py", 1)] := by decide
  have happ : "aoa:transition" ++ ":" ++ "b.py" = "aoa:transition:b.py" := by
    decide
  norm_num [SessionLogParser.predict_next, SessionLogParser.PREFIX_TRANSITION,
    happ, h1]
  intro h
  exact absurd h (List.cons_ne_nil _ _)

theorem c3_predict_c :
    SessionLogParser.predict_next c3Store "c.py" 5 = [("b.py", 1)] := by
  have h1 : c3Store.zrevrangeTake "aoa:transition:c.py" 5 = [("b.py", 1)] := by
    decide
  have happ : "aoa:transition" ++ ":" ++ "c.py" = "aoa:transition:c.py" := by
    decide
  norm_num [SessionLogParser.predict_next, SessionLogParser.PREFIX_TRANSITION,
    happ, h1]

/-- C3 (amended): after ingesting the session `[a.py, b.py, a.py, c.py,
b.py, c.py]`, `a.py`'s observed followers are `b.py` and `c.py` once each,
so `Predict("a.py", 5)` contains `b.py` with probability 0.5 (not 1.0);
likewise `Predict("b.py", 5)` contains `c.py` with probability 0.5; and
`Predict("c.py", 5)` is not empty but `[(b.py, 1.0)]`, since `c.py → b.py`
was observed once. -/
theorem C3_sequence_learning_scenario :
    SessionLogParser.predict_next c3Store "a.py" 5 =
      [("c.py", 1 / 2), ("b.py", 1 / 2)] ∧
    SessionLogParser.predict_next c3Store "b.py" 5 =
      [("c.py", 1 / 2), ("a.py", 1 / 2)] ∧
    SessionLogParser.predict_next c3Store "c.py" 5 = [("b.py", 1)] :=
  ⟨c3_predict_a, c3_predict_b, c3_predict_c⟩

/-- C3 counterexample: on the scenario's ingested state, `b.py` follows
`a.py` with probability 1/2, not 1.0, and `Predict("c.py", 5)` is not
empty. -/
theorem C3_counterexample :
    dget (SessionLogParser.predict_next c3Store "a.py" 5) "b.py" =
      some (1 / 2) ∧
    (1 / 2 : ℚ) ≠ 1 ∧
    SessionLogParser.predict_next c3Store "c.py" 5 ≠ [] := by
  refine ⟨?_, by norm_num, ?_⟩
  · rw [c3_predict_a]
    simp [dget]
  · rw [c3_predict_c]
    exact List.cons_ne_nil _ _

/-! ## C4 — the transition counting rules -/

/-- The integer transition count read off the matrix (0 when absent). -/
def transCountD (tr : List (String × List (String × Int))) (a b : String) :
    Int :=
  (dget ((dget tr a).getD []) b).getD 0

theorem transCountD_foldPairs (pairs : List (String × String))
    (tr : List (String × List (String × Int))) (a b : String) :
    transCountD
      (pairs.foldl
        (fun tr p =>
          if p.1 ≠ p.2 then dset tr p.1 (dincr ((dget tr p.1).getD []) p.2 1)
          else tr)
        tr) a b =
    transCountD tr a b + (if a ≠ b then (pairs.count (a, b) : ℤ) else 0) := by
  induction pairs generalizing tr with
  | nil => simp
  | cons p rest ih =>
    obtain ⟨p1, p2⟩ := p
    rw [List.foldl_cons, ih]
    by_cases hp : p1 ≠ p2
    · simp only [ne_eq, hp, not_false_eq_true, if_true]
      by_cases ha : a = p1
      · subst ha
        by_cases hb : b = p2
        · subst hb
          have hab : a ≠ b := hp
          unfold transCountD
          rw [dget_dset_eq, Option.getD_some, dget_dincr_eq]
          rw [if_pos hab, if_pos hab]
          simp [List.count_cons]
          ring
        · unfold transCountD
          rw [dget_dset_eq, Option.getD_some, dget_dincr_ne _ _ _ _ hb]
          have hpab : ¬ ((a, b) = (a, p2)) := by
            intro hcontr
            exact hb (congrArg Prod.snd hcontr)
          simp [List.count_cons, hpab]
      · unfold transCountD
        rw [dget_dset_ne _ _ _ _ ha]
        have hpab : ¬ ((a, b) = (p1, p2)) := by
          intro hcontr
          exact ha (congrArg Prod.fst hcontr)
        simp [List.count_cons, hpab]
    · rw [if_neg hp]
      push_neg at hp
      subst hp
      by_cases hab : a ≠ b
      · have hpab : ¬ ((a, b) = (p1, p1)) := by
          intro hcontr
          apply hab
          have h1 : a = p1 := congrArg Prod.fst hcontr
          have h2 : b = p1 := congrArg Prod.snd hcontr
          rw [h1, h2]
        simp [List.count_cons, hpab]
      · simp [if_neg hab]

theorem build_matrix_count (sessions : List (List String)) (normalize : Bool)
    (a b : String) :
    transCountD (SessionLogParser.build_transition_matrix sessions normalize)
      a b =
    if a ≠ b then
      (sessions.map
        (fun files =>
          ((SessionLogParser.adjacentPairs
            (if normalize then files.map (SessionLogParser.normalize_path ·)
              else files)).count (a, b) : ℤ))).sum
    else 0 := by
  have hgen : ∀ (ss : List (List String))
      (tr : List (String × List (String × Int))),
      transCountD
        (ss.foldl
          (fun transitions files =>
            ((SessionLogParser.adjacentPairs
              (if normalize then files.map (SessionLogParser.normalize_path ·)
                else files)).foldl
              (fun tr p =>
                if p.1 ≠ p.2 then
                  dset tr p.1 (dincr ((dget tr p.1).getD []) p.2 1)
                else tr)
              transitions))
          tr) a b =
      transCountD tr a b +
        (if a ≠ b then
          (ss.map
            (fun files =>
              ((SessionLogParser.adjacentPairs
                (if normalize then
                  files.map (SessionLogParser.normalize_path ·)
                else files)).count (a, b) : ℤ))).sum
        else 0) := by
    intro ss
    induction ss with
    | nil => intro tr; simp
    | cons files rest ih =>
      intro tr
      rw [List.foldl_cons, ih, transCountD_foldPairs]
      by_cases hab : a ≠ b
      · simp only [if_pos hab, List.map_cons, List.sum_cons]
        ring
      · simp [if_neg hab]
  have h0 : transCountD [] a b = 0 := by simp [transCountD, dget]
  have := hgen sessions []
  rw [h0, zero_add] at this
  exact this

/-- The tracker-side stored count under `transition_counts:{pid}:{src}`. -/
def seqCountD (counts : List (String × List (String × Int)))
    (pid src tgt : String) : ℤ :=
  (dget ((dget counts ("transition_counts:" ++ pid ++ ":" ++ src)).getD [])
    tgt).getD 0

theorem update_probabilities_counts (st : SeqState) (pid f : String) :
    (SequenceTracker.update_probabilities st pid f).counts = st.counts := by
  simp only [SequenceTracker.update_probabilities]
  split
  · rfl
  · split
    · rfl
    · rfl

theorem record_transition_counts (st : SeqState) (pid f t : String)
    (delta : ℚ) (src tgt : String) :
    seqCountD (SequenceTracker.record_transition st pid f t delta).counts pid
      src tgt =
    seqCountD st.counts pid src tgt +
      (if src = f ∧ tgt = t ∧ f ≠ t then 1 else 0) := by
  unfold SequenceTracker.record_transition
  by_cases hft : f = t
  · rw [if_pos hft]
    simp [hft]
  · rw [if_neg hft]
    simp only [update_probabilities_counts, seqCountD]
    by_cases hsrc : src = f
    · subst hsrc
      rw [dget_dset_eq, Option.getD_some]
      by_cases htgt : tgt = t
      · subst htgt
        rw [dget_dincr_eq]
        simp [hft]
      · rw [dget_dincr_ne _ _ _ _ htgt]
        simp [htgt]
    · have hkey : "transition_counts:" ++ pid ++ ":" ++ src ≠
          "transition_counts:" ++ pid ++ ":" ++ f := by
        intro hcontr
        exact hsrc (string_append_left_cancel hcontr)
      rw [dget_dset_ne _ _ _ _ hkey]
      simp [hsrc]

theorem fold_recent_counts (pid fp : String) (now : ℚ)
    (recent : List FileAccess) :
    ∀ (st : SeqState),
      (∀ x ∈ recent, now - x.timestamp ≤ TIME_WINDOW_SECONDS) →
      ∀ (src tgt : String),
      seqCountD
        ((recent.foldl
          (fun st prev =>
            if now - prev.timestamp ≤ TIME_WINDOW_SECONDS then
              SequenceTracker.record_transition st pid prev.file_path fp
                (now - prev.timestamp)
            else st)
          st)).counts pid src tgt =
      seqCountD st.counts pid src tgt +
        (if tgt = fp ∧ src ≠ fp then
          ((recent.map (fun a => a.file_path)).count src : ℤ)
        else 0) := by
  induction recent with
  | nil => intro st _ src tgt; simp
  | cons prev rest ih =>
    intro st hwin src tgt
    rw [List.foldl_cons, if_pos (hwin prev (List.mem_cons_self prev rest)),
      ih _ (fun x hx => hwin x (List.mem_cons_of_mem prev hx)),
      record_transition_counts]
    by_cases htgt : tgt = fp
    · by_cases hsrc : src = fp
      · have hx : ¬ (src = prev.file_path ∧ tgt = fp ∧
            prev.file_path ≠ fp) := by
          rintro ⟨h1, _, h3⟩
          exact h3 (h1.symm.trans hsrc)
        have hy : ¬ (tgt = fp ∧ src ≠ fp) := by
          rintro ⟨_, h2⟩
          exact h2 hsrc
        simp [hx, hy]
      · by_cases hpf : src = prev.file_path
        · have hx : src = prev.file_path ∧ tgt = fp ∧ prev.file_path ≠ fp :=
            ⟨hpf, htgt, fun h => hsrc (hpf.trans h)⟩
          rw [if_pos hx, if_pos ⟨htgt, hsrc⟩, if_pos ⟨htgt, hsrc⟩]
          simp only [List.map_cons, List.count_cons, beq_iff_eq, ← hpf]
          simp
          ring
        · have hx : ¬ (src = prev.file_path ∧ tgt = fp ∧
              prev.file_path ≠ fp) := fun h => hpf h.1
          rw [if_neg hx, if_pos ⟨htgt, hsrc⟩, if_pos ⟨htgt, hsrc⟩]
          have hne : ¬ (src = prev.file_path) := hpf
          simp [List.count_cons, hne]
    · have hx : ¬ (src = prev.file_path ∧ tgt = fp ∧ prev.file_path ≠ fp) :=
        fun h => htgt h.2.1
      have hy : ¬ (tgt = fp ∧ src ≠ fp) := fun h => htgt h.1
      simp [hx, hy]

theorem record_access_counts (st : SeqState) (pid : String)
    (file_path tool session_id : String) (now : ℚ)
    (hguard : ¬ (file_path = "" ∨ strStartsWith file_path "pattern:" ∨
      strStartsWith file_path "cmd:")) (src tgt : String) :
    seqCountD
      (SequenceTracker.record_access st pid file_path tool session_id
        now).counts pid src tgt =
    seqCountD st.counts pid src tgt +
      (if tgt = file_path ∧ src ≠ file_path then
        (((SequenceTracker.get_recent_accesses st
            ("sequences:" ++ pid ++ ":" ++ session_id) now).map
          (fun a => a.file_path)).count src : ℤ)
      else 0) := by
  unfold SequenceTracker.record_access
  rw [if_neg hguard]
  exact fold_recent_counts pid file_path now _ st
    (fun x hx =>
      of_decide_eq_true (List.mem_filter.mp hx).2)
    src tgt

theorem update_probabilities_sequences (st : SeqState) (pid f : String) :
    (SequenceTracker.update_probabilities st pid f).sequences =
      st.sequences := by
  simp only [SequenceTracker.update_probabilities]
  split
  · rfl
  · split
    · rfl
    · rfl

theorem record_transition_sequences (st : SeqState) (pid f t : String)
    (delta : ℚ) :
    (SequenceTracker.record_transition st pid f t delta).sequences =
      st.sequences := by
  unfold SequenceTracker.record_transition
  by_cases hft : f = t
  · rw [if_pos hft]
  · rw [if_neg hft]
    simp only [update_probabilities_sequences]

theorem fold_recent_sequences (pid fp : String) (now : ℚ)
    (recent : List FileAccess) :
    ∀ (st : SeqState),
      ((recent.foldl
        (fun st prev =>
          if now - prev.timestamp ≤ TIME_WINDOW_SECONDS then
            SequenceTracker.record_transition st pid prev.file_path fp
              (now - prev.timestamp)
          else st)
        st)).sequences = st.sequences := by
  induction recent with
  | nil => intro st; rfl
  | cons prev rest ih =>
    intro st
    rw [List.foldl_cons]
    by_cases hw : now - prev.timestamp ≤ TIME_WINDOW_SECONDS
    · rw [if_pos hw, ih, record_transition_sequences]
    · rw [if_neg hw, ih]

theorem record_access_sequences (st : SeqState) (pid : String)
    (file_path tool session_id : String) (now : ℚ)
    (hguard : ¬ (file_path = "" ∨ strStartsWith file_path "pattern:" ∨
      strStartsWith file_path "cmd:")) :
    (SequenceTracker.record_access st pid file_path tool session_id
      now).sequences =
    dset st.sequences ("sequences:" ++ pid ++ ":" ++ session_id)
      (((⟨file_path, now, tool, session_id⟩ : FileAccess) ::
        (dget st.sequences
          ("sequences:" ++ pid ++ ":" ++ session_id)).getD []).take 100) := by
  unfold SequenceTracker.record_access
  rw [if_neg hguard]
  simp only [fold_recent_sequences]

/-- C4 (amended): the batch importer `build_transition_matrix` increments a
count for exactly the consecutive pairs `(A, B)` with `A ≠ B` — one per
occurrence, self-transitions and non-adjacent pairs contributing nothing —
while the live `SequenceTracker.record_access` increments the count of the
accessed file under each of the session's last up-to-10 accesses within the
300-second window (so non-adjacent recent pairs do count there),
self-transitions still skipped. -/
theorem C4_transition_counting :
    (∀ (sessions : List (List String)) (normalize : Bool) (a b : String),
      a ≠ b →
      transCountD
        (SessionLogParser.build_transition_matrix sessions normalize) a b =
      (sessions.map
        (fun files =>
          ((SessionLogParser.adjacentPairs
            (if normalize then files.map (SessionLogParser.normalize_path ·)
              else files)).count (a, b) : ℤ))).sum) ∧
    (∀ (sessions : List (List String)) (normalize : Bool) (a : String),
      transCountD
        (SessionLogParser.build_transition_matrix sessions normalize) a a =
        0) ∧
    (∀ (st : SeqState) (pid file_path tool session_id : String) (now : ℚ),
      ¬ (file_path = "" ∨ strStartsWith file_path "pattern:" ∨
        strStartsWith file_path "cmd:") →
      ∀ (src tgt : String),
      seqCountD
        (SequenceTracker.record_access st pid file_path tool session_id
          now).counts pid src tgt =
      seqCountD st.counts pid src tgt +
        (if tgt = file_path ∧ src ≠ file_path then
          (((SequenceTracker.get_recent_accesses st
              ("sequences:" ++ pid ++ ":" ++ session_id) now).map
            (fun a => a.file_path)).count src : ℤ)
        else 0)) := by
  refine ⟨?_, ?_, ?_⟩
  · intro sessions normalize a b hab
    rw [build_matrix_count, if_pos hab]
  · intro sessions normalize a
    rw [build_matrix_count, if_neg (by simp)]
  · intro st pid file_path tool session_id now hguard src tgt
    exact record_access_counts st pid file_path tool session_id now hguard
      src tgt

/-- Witness for C4 at concrete inputs: the importer counts the adjacent pair
`(a.py, b.py)` once in the scenario session and records no self-count, and
one guarded tracker call from the empty state stores nothing under
`(a.py, c.py)` (its recent list is empty). -/
theorem C4_transition_counting_witness :
    transCountD (SessionLogParser.build_transition_matrix c3Sessions true)
      "a.py" "b.py" = 1 ∧
    transCountD (SessionLogParser.build_transition_matrix c3Sessions true)
      "a.py" "a.py" = 0 ∧
    seqCountD
      (SequenceTracker.record_access SeqState.empty "p" "c.py" "Read" "S"
        2).counts "p" "a.py" "c.py" = 0 := by
  refine ⟨?_, ?_, ?_⟩
  · rw [C4_transition_counting.1 c3Sessions true "a.py" "b.py" (by decide)]
    decide
  · exact C4_transition_counting.2.1 c3Sessions true "a.py"
  · rw [C4_transition_counting.2.2 SeqState.empty "p" "c.py" "Read" "S" 2
      (by decide) "a.py" "c.py"]
    decide

def c4St1 : SeqState :=
  SequenceTracker.record_access SeqState.empty "p" "a.py" "Read" "S" 0

def c4St2 : SeqState :=
  SequenceTracker.record_access c4St1 "p" "b.py" "Read" "S" 1

def c4St3 : SeqState :=
  SequenceTracker.record_access c4St2 "p" "c.py" "Read" "S" 2

/-- C4 counterexample: after the tracker ingests the session reads
`a.py, b.py, c.py` (1 second apart), the stored count of target `c.py`
under source `a.py` is 1 even though `(a.py, c.py)` is not a consecutive
pair of the sequence — contradicting "non-adjacent pairs in the sequence
contribute nothing" for the tracker's stored counts. -/
theorem C4_counterexample :
    seqCountD c4St3.counts "p" "a.py" "c.py" = 1 ∧
    (SessionLogParser.adjacentPairs ["a.py", "b.py", "c.py"]).count
      ("a.py", "c.py") = 0 := by
  have hseq1 : c4St1.sequences =
      [("sequences:p:S", [⟨"a.py", 0, "Read", "S"⟩])] := by
    show (SequenceTracker.record_access SeqState.empty "p" "a.py" "Read" "S"
      0).sequences = _
    rw [record_access_sequences _ _ _ _ _ _ (by decide)]
    decide
  have hseq2 : c4St2.sequences =
      [("sequences:p:S",
        [⟨"b.py", 1, "Read", "S"⟩, ⟨"a.py", 0, "Read", "S"⟩])] := by
    show (SequenceTracker.record_access c4St1 "p" "b.py" "Read" "S"
      1).sequences = _
    rw [record_access_sequences _ _ _ _ _ _ (by decide), hseq1]
    decide
  have h2 : seqCountD c4St2.counts "p" "a.py" "c.py" = 0 := by
    show seqCountD (SequenceTracker.record_access c4St1 "p" "b.py" "Read" "S"
      1).counts "p" "a.py" "c.py" = 0
    rw [record_access_counts _ _ _ _ _ _ (by decide) "a.py" "c.py",
      if_neg (by decide)]
    show seqCountD (SequenceTracker.record_access SeqState.empty "p" "a.py"
      "Read" "S" 0).counts "p" "a.py" "c.py" + 0 = 0
    rw [record_access_counts _ _ _ _ _ _ (by decide) "a.py" "c.py",
      if_neg (by decide)]
    decide
  have hrecent : SequenceTracker.get_recent_accesses c4St2
      ("sequences:" ++ "p" ++ ":" ++ "S") 2 =
      [⟨"b.py", 1, "Read", "S"⟩, ⟨"a.py", 0, "Read", "S"⟩] := by
    unfold SequenceTracker.get_recent_accesses
    have hkey : "sequences:" ++ "p" ++ ":" ++ "S" = "sequences:p:S" := by
      decide
    rw [hkey, hseq2]
    norm_num [dget, TIME_WINDOW_SECONDS]
  constructor
  · show seqCountD (SequenceTracker.record_access c4St2 "p" "c.py" "Read" "S"
      2).counts "p" "a.py" "c.py" = 1
    rw [record_access_counts _ _ _ _ _ _ (by decide) "a.py" "c.py",
      if_pos ⟨rfl, by decide⟩, h2, hrecent]
    decide
  · decide

/-! ## C7 — hit/miss exclusivity of prediction batches -/

/-- The two evaluator operations that touch a batch's hit flag after it is
logged. -/
inductive EvalOp where
  | check (session_id file_path project_id : String)
  | fin (max_age_seconds now : ℚ)

namespace Evaluator

def EvalOp.apply (op : EvalOp) (st : EvalState) : EvalState :=
  match op with
  | .check session_id file_path project_id =>
    check_prediction_hit st session_id file_path project_id
  | .fin max_age_seconds now => finalize_predictions st max_age_seconds now

/-- The flag value an operation can move a pending batch to: `"1"` for a
check hit, `"0"` for finalization. -/
def EvalOp.mark : EvalOp → String
  | .check _ _ _ => "1"
  | .fin _ _ => "0"

theorem bumpHitCounters_rolling_hit (st : EvalState) (project_id : String) :
    (bumpHitCounters st project_id).rolling_hit = st.rolling_hit := by
  unfold bumpHitCounters
  split <;> rfl

theorem bumpMissCounters_rolling_hit (st : EvalState) (project_id : String) :
    (bumpMissCounters st project_id).rolling_hit = st.rolling_hit := by
  unfold bumpMissCounters
  split <;> rfl

theorem markHit_hitFlag (st : EvalState) (key k : String) :
    hitFlag (markHit st key) k = hitFlag st k ∨
    (hitFlag st k = some "" ∧ hitFlag (markHit st key) k = some "1") := by
  rcases hcur : dget st.rolling_hit ("aoa:rolling:data:" ++ key) with _ | h
  · have hred : markHit st key = st := by
      unfold markHit
      rw [hcur]
    left
    rw [hred]
  · have hred : markHit st key =
        if h = "" then
          { st with
            rolling_hit :=
              dset st.rolling_hit ("aoa:rolling:data:" ++ key) "1" }
        else st := by
      unfold markHit
      rw [hcur]
    by_cases hc : h = ""
    · rw [hred, if_pos hc]
      by_cases hk : key = k
      · subst hk
        subst hc
        right
        refine ⟨hcur, ?_⟩
        simp only [hitFlag]
        rw [dget_dset_eq]
      · left
        simp only [hitFlag]
        rw [dget_dset_ne]
        intro hcontr
        exact hk (string_append_left_cancel hcontr).symm
    · rw [hred, if_neg hc]
      left
      rfl

theorem markMiss_hitFlag (st : EvalState) (key k : String) :
    hitFlag (markMiss st key) k = hitFlag st k ∨
    (hitFlag st k = some "" ∧ hitFlag (markMiss st key) k = some "0") := by
  rcases hcur : dget st.rolling_hit ("aoa:rolling:data:" ++ key) with _ | h
  · have hred : markMiss st key = st := by
      unfold markMiss
      rw [hcur]
    left
    rw [hred]
  · have hred : markMiss st key =
        if h = "" then
          { st with
            rolling_hit :=
              dset st.rolling_hit ("aoa:rolling:data:" ++ key) "0" }
        else st := by
      unfold markMiss
      rw [hcur]
    by_cases hc : h = ""
    · rw [hred, if_pos hc]
      by_cases hk : key = k
      · subst hk
        subst hc
        right
        refine ⟨hcur, ?_⟩
        simp only [hitFlag]
        rw [dget_dset_eq]
      · left
        simp only [hitFlag]
        rw [dget_dset_ne]
        intro hcontr
        exact hk (string_append_left_cancel hcontr).symm
    · rw [hred, if_neg hc]
      left
      rfl

theorem hitFlag_bumpHit (st : EvalState) (project_id k : String) :
    hitFlag (bumpHitCounters st project_id) k = hitFlag st k := by
  simp only [hitFlag, bumpHitCounters_rolling_hit]

theorem hitFlag_bumpMiss (st : EvalState) (project_id k : String) :
    hitFlag (bumpMissCounters st project_id) k = hitFlag st k := by
  simp only [hitFlag, bumpMissCounters_rolling_hit]

theorem checkLoop_hitFlag (keys : List String) :
    ∀ (st : EvalState) (file_path project_id k : String),
      hitFlag (checkLoop st keys file_path project_id) k = hitFlag st k ∨
      (hitFlag st k = some "" ∧
        hitFlag (checkLoop st keys file_path project_id) k = some "1") := by
  induction keys with
  | nil =>
    intro st file_path project_id k
    left
    rw [checkLoop, hitFlag_bumpMiss]
  | cons key rest ih =>
    intro st file_path project_id k
    rcases hpred : dget st.preds key with _ | pred
    · have hred : checkLoop st (key :: rest) file_path project_id =
          checkLoop st rest file_path project_id := by
        rw [checkLoop, hpred]
      rw [hred]
      exact ih st file_path project_id k
    · have hred : checkLoop st (key :: rest) file_path project_id =
          if file_path ∈ pred.predicted_files then
            markHit (bumpHitCounters st project_id) key
          else checkLoop st rest file_path project_id := by
        rw [checkLoop, hpred]
      rw [hred]
      by_cases hin : file_path ∈ pred.predicted_files
      · rw [if_pos hin]
        rcases markHit_hitFlag (bumpHitCounters st project_id) key k with
            hm | ⟨hpend, hm⟩
        · left
          rw [hm, hitFlag_bumpHit]
        · right
          rw [hitFlag_bumpHit] at hpend
          exact ⟨hpend, hm⟩
      · rw [if_neg hin]
        exact ih st file_path project_id k

theorem check_hitFlag (st : EvalState) (session_id file_path project_id
    k : String) :
    hitFlag (check_prediction_hit st session_id file_path project_id) k =
      hitFlag st k ∨
    (hitFlag st k = some "" ∧
      hitFlag (check_prediction_hit st session_id file_path project_id) k =
        some "1") := by
  unfold check_prediction_hit
  by_cases hfp : file_path = ""
  · rw [if_pos hfp]
    left
    rfl
  · rw [if_neg hfp]
    exact checkLoop_hitFlag _ st file_path project_id k

theorem finalize_fold_hitFlag (keys : List String) :
    ∀ (st : EvalState) (k : String),
      hitFlag (keys.foldl (fun st key => markMiss st key) st) k =
        hitFlag st k ∨
      (hitFlag st k = some "" ∧
        hitFlag (keys.foldl (fun st key => markMiss st key) st) k =
          some "0") := by
  induction keys with
  | nil => intro st k; left; rfl
  | cons key rest ih =>
    intro st k
    rw [List.foldl_cons]
    rcases markMiss_hitFlag st key k with hstep | ⟨hpend, hstep⟩
    · rcases ih (markMiss st key) k with hrest | ⟨hpend2, hrest⟩
      · left
        rw [hrest, hstep]
      · right
        rw [hstep] at hpend2
        exact ⟨hpend2, hrest⟩
    · rcases ih (markMiss st key) k with hrest | ⟨hpend2, hrest⟩
      · right
        rw [hrest, hstep]
        exact ⟨hpend, rfl⟩
      · rw [hstep] at hpend2
        exact absurd hpend2 (by decide)

theorem finalize_hitFlag (st : EvalState) (max_age_seconds now : ℚ)
    (k : String) :
    hitFlag (finalize_predictions st max_age_seconds now) k = hitFlag st k ∨
    (hitFlag st k = some "" ∧
      hitFlag (finalize_predictions st max_age_seconds now) k = some "0") := by
  unfold finalize_predictions
  exact finalize_fold_hitFlag _ st k

end Evaluator

/-- C7: once a batch is logged pending, its hit flag moves `pending → hit`
only through a check (and a second matching check is a no-op, as is any
operation on a non-pending batch), moves `pending → miss` only through
finalization, and a terminal value (`"1"` or `"0"`) persists through every
further check/finalize — so no batch is ever marked both hit and miss. -/
theorem C7_hit_miss_exclusive :
    (∀ (st : EvalState) (op : EvalOp) (k : String),
      Evaluator.hitFlag st k ≠ some "" →
      Evaluator.hitFlag (Evaluator.EvalOp.apply op st) k =
        Evaluator.hitFlag st k) ∧
    (∀ (st : EvalState) (op : EvalOp) (k : String),
      Evaluator.hitFlag (Evaluator.EvalOp.apply op st) k ≠
        Evaluator.hitFlag st k →
      Evaluator.hitFlag st k = some "" ∧
      Evaluator.hitFlag (Evaluator.EvalOp.apply op st) k =
        some (Evaluator.EvalOp.mark op)) ∧
    (∀ (ops : List EvalOp) (st : EvalState) (k v : String), v ≠ "" →
      Evaluator.hitFlag st k = some v →
      Evaluator.hitFlag
        (ops.foldl (fun s op => Evaluator.EvalOp.apply op s) st) k =
        some v) := by
  have hstep : ∀ (st : EvalState) (op : EvalOp) (k : String),
      Evaluator.hitFlag (Evaluator.EvalOp.apply op st) k =
        Evaluator.hitFlag st k ∨
      (Evaluator.hitFlag st k = some "" ∧
        Evaluator.hitFlag (Evaluator.EvalOp.apply op st) k =
          some (Evaluator.EvalOp.mark op)) := by
    intro st op k
    cases op with
    | check session_id file_path project_id =>
      exact Evaluator.check_hitFlag st session_id file_path project_id k
    | fin max_age_seconds now =>
      exact Evaluator.finalize_hitFlag st max_age_seconds now k
  have hfreeze : ∀ (st : EvalState) (op : EvalOp) (k : String),
      Evaluator.hitFlag st k ≠ some "" →
      Evaluator.hitFlag (Evaluator.EvalOp.apply op st) k =
        Evaluator.hitFlag st k := by
    intro st op k hne
    rcases hstep st op k with h | ⟨hpend, _⟩
    · exact h
    · exact absurd hpend hne
  refine ⟨hfreeze, ?_, ?_⟩
  · intro st op k hne
    rcases hstep st op k with h | ⟨hpend, hmark⟩
    · exact absurd h hne
    · exact ⟨hpend, hmark⟩
  · intro ops
    induction ops with
    | nil => intro st k v _ hv; exact hv
    | cons op rest ih =>
      intro st k v hvne hv
      rw [List.foldl_cons]
      refine ih _ k v hvne ?_
      rw [hfreeze st op k (by rw [hv]; simpa using hvne), hv]

/-- Witness for C7: log a batch, mark it hit by a matching check; a second
matching check and a later finalization both leave the flag at `"1"`. -/
theorem C7_hit_miss_exclusive_witness :
    Evaluator.hitFlag
      (([EvalOp.check "S" "f.py" "", EvalOp.fin 0 500] :
        List EvalOp).foldl (fun s op => Evaluator.EvalOp.apply op s)
        (Evaluator.check_prediction_hit
          (Evaluator.log_prediction EvalState.empty "S" ["f.py"] 1 100 7)
          "S" "f.py" ""))
      "aoa:prediction:S:7" = some "1" := by
  apply C7_hit_miss_exclusive.2.2
  · decide
  · decide

/-! ## C9 — `Scorer.record_access` postcondition -/

theorem tagfold_zscore (file : String) (tags : List String) :
    ∀ (st : RedisStore) (t g : String),
      ((tags.foldl
        (fun s tag =>
          s.zincrby (RedisClient.PREFIX_TAG ++ ":" ++ tag) 1 file)
        st)).zscore (RedisClient.PREFIX_TAG ++ ":" ++ t) g =
      if g = file ∧ 0 < tags.count t then
        some (((st.zscore (RedisClient.PREFIX_TAG ++ ":" ++ t) g).getD 0) +
          tags.count t)
      else st.zscore (RedisClient.PREFIX_TAG ++ ":" ++ t) g := by
  induction tags with
  | nil => intro st t g; simp
  | cons a rest ih =>
    intro st t g
    rw [List.foldl_cons, ih]
    by_cases hta : t = a
    · subst hta
      by_cases hg : g = file
      · subst hg
        rw [RedisStore.zscore_zincrby_self]
        have hcount : (t :: rest).count t = rest.count t + 1 := by
          simp [List.count_cons]
        by_cases hrest : 0 < rest.count t
        · rw [if_pos ⟨rfl, hrest⟩, if_pos ⟨rfl, by omega⟩, Option.getD_some,
            hcount]
          congr 1
          push_cast
          ring
        · rw [if_neg (fun hcontr => hrest hcontr.2),
            if_pos ⟨rfl, by omega⟩]
          have hzero : rest.count t = 0 := by omega
          rw [hcount, hzero]
          norm_num
      · rw [RedisStore.zscore_zincrby_ne_member st _ _ hg]
        have hcount : ¬ (g = file ∧ 0 < (t :: rest).count t) :=
          fun hcontr => hg hcontr.1
        rw [if_neg hcount, if_neg (fun hcontr => hg hcontr.1)]
    · have hkey : RedisClient.PREFIX_TAG ++ ":" ++ t ≠
          RedisClient.PREFIX_TAG ++ ":" ++ a :=
        fun hcontr => hta (tagKey_inj hcontr)
      rw [RedisStore.zscore_zincrby_ne_key st _ _ _ hkey]
      have hcount : (a :: rest).count t = rest.count t := by
        simp [List.count_cons, Ne.symm hta]
      rw [hcount]

theorem tagfold_zscore_recency (file : String) (tags : List String) :
    ∀ (st : RedisStore) (g : String),
      ((tags.foldl
        (fun s tag =>
          s.zincrby (RedisClient.PREFIX_TAG ++ ":" ++ tag) 1 file)
        st)).zscore RedisClient.PREFIX_RECENCY g =
      st.zscore RedisClient.PREFIX_RECENCY g := by
  induction tags with
  | nil => intro st g; rfl
  | cons a rest ih =>
    intro st g
    rw [List.foldl_cons, ih,
      RedisStore.zscore_zincrby_ne_key st _ _ _
        (Ne.symm (tagKey_ne_recency a))]

theorem tagfold_zscore_frequency (file : String) (tags : List String) :
    ∀ (st : RedisStore) (g : String),
      ((tags.foldl
        (fun s tag =>
          s.zincrby (RedisClient.PREFIX_TAG ++ ":" ++ tag) 1 file)
        st)).zscore RedisClient.PREFIX_FREQUENCY g =
      st.zscore RedisClient.PREFIX_FREQUENCY g := by
  induction tags with
  | nil => intro st g; rfl
  | cons a rest ih =>
    intro st g
    rw [List.foldl_cons, ih,
      RedisStore.zscore_zincrby_ne_key st _ _ _
        (Ne.symm (tagKey_ne_frequency a))]

theorem tagfold_getStr (file : String) (tags : List String) :
    ∀ (st : RedisStore) (k : String),
      ((tags.foldl
        (fun s tag =>
          s.zincrby (RedisClient.PREFIX_TAG ++ ":" ++ tag) 1 file)
        st)).getStr k = st.getStr k := by
  induction tags with
  | nil => intro st k; rfl
  | cons a rest ih =>
    intro st k
    rw [List.foldl_cons, ih]
    rfl

/-- C9 (amended): for a supplied timestamp `ts ≠ 0`, one `record_access`
call sets the file's recency to exactly `ts`, increments its frequency by
exactly 1, sets first-seen to `ts` only if absent, and increments each
supplied `(tag, file)` counter by the tag's number of occurrences in the
supplied list (by 1 for each distinct tag); no other file's recency,
frequency, tag or first-seen entries change.  (A supplied timestamp of 0 is
falsy in Python and falls back to the current time — see the
counterexample.) -/
theorem C9_record_access_postcondition (st : RedisStore) (file : String)
    (tags : List String) (ts now : ℤ) (hts : ts ≠ 0) :
    (Scorer.record_access st file tags (some ts) now).zscore
        RedisClient.PREFIX_RECENCY file = some (ts : ℚ) ∧
    (Scorer.record_access st file tags (some ts) now).zscore
        RedisClient.PREFIX_FREQUENCY file =
      some (((st.zscore RedisClient.PREFIX_FREQUENCY file).getD 0) + 1) ∧
    (Scorer.record_access st file tags (some ts) now).getStr
        ("aoa:first_seen:" ++ file) =
      some ((st.getStr ("aoa:first_seen:" ++ file)).getD (ts : ℚ)) ∧
    (∀ tag : String,
      (Scorer.record_access st file tags (some ts) now).zscore
          (RedisClient.PREFIX_TAG ++ ":" ++ tag) file =
        if 0 < tags.count tag then
          some (((st.zscore (RedisClient.PREFIX_TAG ++ ":" ++ tag)
            file).getD 0) + tags.count tag)
        else st.zscore (RedisClient.PREFIX_TAG ++ ":" ++ tag) file) ∧
    (∀ g : String, g ≠ file →
      (Scorer.record_access st file tags (some ts) now).zscore
          RedisClient.PREFIX_RECENCY g =
        st.zscore RedisClient.PREFIX_RECENCY g ∧
      (Scorer.record_access st file tags (some ts) now).zscore
          RedisClient.PREFIX_FREQUENCY g =
        st.zscore RedisClient.PREFIX_FREQUENCY g ∧
      (∀ tag : String,
        (Scorer.record_access st file tags (some ts) now).zscore
            (RedisClient.PREFIX_TAG ++ ":" ++ tag) g =
          st.zscore (RedisClient.PREFIX_TAG ++ ":" ++ tag) g) ∧
      (Scorer.record_access st file tags (some ts) now).getStr
          ("aoa:first_seen:" ++ g) = st.getStr ("aoa:first_seen:" ++ g)) := by
  have htseq : (match some ts with
      | some t => if t = 0 then now else t
      | none => (now : ℤ)) = ts := by
    show (if ts = 0 then now else ts) = ts
    rw [if_neg hts]
  have hred : Scorer.record_access st file tags (some ts) now =
      tags.foldl
        (fun s tag =>
          s.zincrby (RedisClient.PREFIX_TAG ++ ":" ++ tag) 1 file)
        (((st.zadd RedisClient.PREFIX_RECENCY (ts : ℚ) file).zincrby
          RedisClient.PREFIX_FREQUENCY 1 file).setnx
          ("aoa:first_seen:" ++ file) (ts : ℚ)) := by
    unfold Scorer.record_access
    rw [htseq]
  have hRF : RedisClient.PREFIX_FREQUENCY ≠ RedisClient.PREFIX_RECENCY := by
    decide
  have hFR : RedisClient.PREFIX_RECENCY ≠ RedisClient.PREFIX_FREQUENCY := by
    decide
  refine ⟨?_, ?_, ?_, ?_, ?_⟩
  · rw [hred, tagfold_zscore_recency, RedisStore.zscore_setnx,
      RedisStore.zscore_zincrby_ne_key _ _ _ _ hFR,
      RedisStore.zscore_zadd_self]
  · rw [hred, tagfold_zscore_frequency, RedisStore.zscore_setnx,
      RedisStore.zscore_zincrby_self,
      RedisStore.zscore_zadd_ne_key _ _ _ _ hRF]
  · rw [hred, tagfold_getStr, RedisStore.getStr_setnx_self]
    rfl
  · intro tag
    rw [hred, tagfold_zscore]
    by_cases hcount : 0 < tags.count tag
    · rw [if_pos ⟨rfl, hcount⟩, if_pos hcount, RedisStore.zscore_setnx,
        RedisStore.zscore_zincrby_ne_key _ _ _ _ (tagKey_ne_frequency tag),
        RedisStore.zscore_zadd_ne_key _ _ _ _ (tagKey_ne_recency tag)]
    · rw [if_neg (fun hcontr => hcount hcontr.2), if_neg hcount,
        RedisStore.zscore_setnx,
        RedisStore.zscore_zincrby_ne_key _ _ _ _ (tagKey_ne_frequency tag),
        RedisStore.zscore_zadd_ne_key _ _ _ _ (tagKey_ne_recency tag)]
  · intro g hg
    refine ⟨?_, ?_, ?_, ?_⟩
    · rw [hred, tagfold_zscore_recency, RedisStore.zscore_setnx,
        RedisStore.zscore_zincrby_ne_key _ _ _ _ hFR,
        RedisStore.zscore_zadd_ne_member st _ _ hg]
    · rw [hred, tagfold_zscore_frequency, RedisStore.zscore_setnx,
        RedisStore.zscore_zincrby_ne_member _ _ _ hg,
        RedisStore.zscore_zadd_ne_key _ _ _ _ hRF]
    · intro tag
      rw [hred, tagfold_zscore, if_neg (fun hcontr => hg hcontr.1),
        RedisStore.zscore_setnx,
        RedisStore.zscore_zincrby_ne_key _ _ _ _ (tagKey_ne_frequency tag),
        RedisStore.zscore_zadd_ne_key _ _ _ _ (tagKey_ne_recency tag)]
    · have hfs : "aoa:first_seen:" ++ g ≠ "aoa:first_seen:" ++ file :=
        fun hcontr => hg (string_append_left_cancel hcontr)
      rw [hred, tagfold_getStr, RedisStore.getStr_setnx_ne _ _ _ hfs]
      rfl

/-- Witness for C9: recording `f.py` with tag list `[api, api]` and
timestamp 42 on the empty store sets recency 42, frequency 1, first-seen 42
and an `api` counter of 2, and leaves another file's entries empty. -/
theorem C9_record_access_postcondition_witness :
    (Scorer.record_access emptyStore "f.py" ["api", "api"] (some 42)
        100).zscore RedisClient.PREFIX_RECENCY "f.py" = some (42 : ℚ) ∧
    (Scorer.record_access emptyStore "f.py" ["api", "api"] (some 42)
        100).zscore (RedisClient.PREFIX_TAG ++ ":" ++ "api") "f.py" =
      some ((0 : ℚ) + (2 : ℕ)) ∧
    (Scorer.record_access emptyStore "f.py" ["api", "api"] (some 42)
        100).zscore RedisClient.PREFIX_RECENCY "g.py" =
      emptyStore.zscore RedisClient.PREFIX_RECENCY "g.py" := by
  have h := C9_record_access_postcondition emptyStore "f.py" ["api", "api"]
    42 100 (by decide)
  refine ⟨h.1, ?_, (h.2.2.2.2 "g.py" (by decide)).1⟩
  have h4 := h.2.2.2.1 "api"
  rw [if_pos (by decide)] at h4
  simpa [RedisStore.zscore, RedisStore.zsetOf, emptyStore, dget] using h4

/-- C9 counterexample: `ts = timestamp or int(time.time())` — a supplied
timestamp of 0 is falsy, so `record_access(f, [], 0)` at current time 1000
sets the recency score to 1000, not to the supplied 0. -/
theorem C9_counterexample :
    (Scorer.record_access emptyStore "f.py" [] (some 0) 1000).zscore
        RedisClient.PREFIX_RECENCY "f.py" = some (1000 : ℚ) ∧
    (1000 : ℚ) ≠ 0 := by
  constructor
  · show ((((emptyStore.zadd RedisClient.PREFIX_RECENCY ((1000 : ℤ) : ℚ)
        "f.py").zincrby RedisClient.PREFIX_FREQUENCY 1 "f.py").setnx
        ("aoa:first_seen:" ++ "f.py") ((1000 : ℤ) : ℚ))).zscore
        RedisClient.PREFIX_RECENCY "f.py" = some (1000 : ℚ)
    rw [RedisStore.zscore_setnx,
      RedisStore.zscore_zincrby_ne_key _ _ _ _ (by decide),
      RedisStore.zscore_zadd_self]
    norm_num
  · norm_num

/-! ## C6 — confidence calibration and its monotonicity -/

/-- C6: `calculate_confidence` computes
`base · (0.7·evidence + 0.3·stability)` with
`evidence = min(1, 0.3 + 0.7·log1p(accesses)/log1p(20))` and
`stability = min(1, 0.5 + 0.5·hours/24)` (rounded to 4 decimals on output),
and it is monotone non-decreasing in the composite when access count and
time span are held constant, and monotone non-decreasing in the access
count when composite and time span are held constant. -/
theorem C6_confidence_monotone :
    (∀ (c : ℝ) (n : ℤ) (h : ℝ),
      Scorer.calculate_confidence c n h =
        pyRound 4 ((c / 100) *
          (0.7 * min 1 (0.3 + 0.7 * Real.log (1 + (n : ℝ)) /
              Real.log (1 + 20)) +
            0.3 * min 1 (0.5 + 0.5 * h / 24)))) ∧
    (∀ (c₁ c₂ : ℝ) (n : ℤ) (h : ℝ), 0 ≤ n → 0 ≤ h → c₁ ≤ c₂ →
      Scorer.calculate_confidence c₁ n h ≤
        Scorer.calculate_confidence c₂ n h) ∧
    (∀ (c : ℝ) (n₁ n₂ : ℤ) (h : ℝ), 0 ≤ c → 0 ≤ n₁ → n₁ ≤ n₂ →
      Scorer.calculate_confidence c n₁ h ≤
        Scorer.calculate_confidence c n₂ h) := by
  have hlog21 : (0 : ℝ) < Real.log (1 + 20) := by
    apply Real.log_pos
    norm_num
  have hev_nonneg : ∀ (n : ℤ), 0 ≤ n →
      (0 : ℝ) ≤ min 1 (0.3 + 0.7 * Real.log (1 + (n : ℝ)) /
        Real.log (1 + 20)) := by
    intro n hn
    have hlog : (0 : ℝ) ≤ Real.log (1 + (n : ℝ)) := by
      apply Real.log_nonneg
      have : (0 : ℝ) ≤ (n : ℝ) := by exact_mod_cast hn
      linarith
    have : (0 : ℝ) ≤ 0.7 * Real.log (1 + (n : ℝ)) / Real.log (1 + 20) := by
      positivity
    apply le_min
    · norm_num
    · linarith
  have hst_nonneg : ∀ (h : ℝ), 0 ≤ h →
      (0 : ℝ) ≤ min 1 (0.5 + 0.5 * h / 24) := by
    intro h hh
    apply le_min
    · norm_num
    · linarith
  refine ⟨fun c n h => rfl, ?_, ?_⟩
  · intro c₁ c₂ n h hn hh hc
    unfold Scorer.calculate_confidence
    apply pyRound_mono
    have hK : (0 : ℝ) ≤
        0.7 * min 1 (0.3 + 0.7 * Real.log (1 + (n : ℝ)) /
          Real.log (1 + 20)) + 0.3 * min 1 (0.5 + 0.5 * h / 24) := by
      have h1 := hev_nonneg n hn
      have h2 := hst_nonneg h hh
      linarith
    have hbase : c₁ / 100 ≤ c₂ / 100 := by linarith
    exact mul_le_mul_of_nonneg_right hbase hK
  · intro c n₁ n₂ h hc hn1 hn12
    unfold Scorer.calculate_confidence
    apply pyRound_mono
    have hbase : (0 : ℝ) ≤ c / 100 := by linarith
    apply mul_le_mul_of_nonneg_left _ hbase
    have hev : min 1 (0.3 + 0.7 * Real.log (1 + (n₁ : ℝ)) /
        Real.log (1 + 20)) ≤
        min 1 (0.3 + 0.7 * Real.log (1 + (n₂ : ℝ)) / Real.log (1 + 20)) := by
      apply min_le_min le_rfl
      have hlog : Real.log (1 + (n₁ : ℝ)) ≤ Real.log (1 + (n₂ : ℝ)) := by
        apply Real.log_le_log
        · have : (0 : ℝ) ≤ (n₁ : ℝ) := by exact_mod_cast hn1
          linarith
        · have : (n₁ : ℝ) ≤ (n₂ : ℝ) := by exact_mod_cast hn12
          linarith
      have hdiv : 0.7 * Real.log (1 + (n₁ : ℝ)) / Real.log (1 + 20) ≤
          0.7 * Real.log (1 + (n₂ : ℝ)) / Real.log (1 + 20) := by
        gcongr
      linarith
    linarith

/-- Witness for C6 at concrete inputs: confidence at composite 40 is at most
that at 60 (5 accesses, 2 hours), and confidence with 3 accesses is at most
that with 10 (composite 50, 4 hours). -/
theorem C6_confidence_monotone_witness :
    Scorer.calculate_confidence 40 5 2 ≤ Scorer.calculate_confidence 60 5 2 ∧
    Scorer.calculate_confidence 50 3 4 ≤
      Scorer.calculate_confidence 50 10 4 :=
  ⟨C6_confidence_monotone.2.1 40 60 5 2 (by norm_num) (by norm_num)
      (by norm_num),
    C6_confidence_monotone.2.2 50 3 10 4 (by norm_num) (by norm_num)
      (by norm_num)⟩

/-! ## C5 — ordering of `get_ranked_files` -/

/-- C5 (amended): the returned list is the stable descending sort by
composite of the score map's entries, truncated to `limit` — so it is
sorted by composite descending, and entries with equal composites keep the
score map's insertion order (recency-set files first, in `ZREVRANGE`
order — recency descending with reverse-lexicographic ties — then
frequency-only files, then tag-only files), not the recency-then-
lexicographic order the claim states. -/
theorem C5_ranked_files_order (st : RedisStore) (tags : List String)
    (limit : ℕ) (now : ℚ) (w : Scorer.Weights) :
    Scorer.get_ranked_files st tags limit now w =
      (Scorer.rankedPairs st tags limit now w).map
        (Scorer.mkEntry st tags now) ∧
    (Scorer.rankedPairs st tags limit now w).Pairwise
      (fun x y => y.2.2 ≤ x.2.2) ∧
    (∀ x y : String × Scorer.ScoresRec × ℝ,
      [x, y].Sublist
        ((Scorer.buildFileScores st tags now).map
          (fun e => (e.1, e.2, Scorer.composite tags w e.2))) →
      y.2.2 ≤ x.2.2 →
      [x, y].Sublist
        (pySortRevBy (fun e => e.2.2)
          ((Scorer.buildFileScores st tags now).map
            (fun e => (e.1, e.2, Scorer.composite tags w e.2))))) := by
  refine ⟨rfl, ?_, ?_⟩
  · simp only [Scorer.rankedPairs]
    split
    · exact List.Pairwise.nil
    · exact List.Pairwise.sublist (List.take_sublist _ _)
        (pySortRevBy_sorted _ _)
  · intro x y hxy hk
    exact pySortRevBy_stable _ _ x y hxy hk

/-- The C5 counterexample store: two files accessed at the same timestamp
with the same frequency, so their composites tie. -/
def c5Store : RedisStore :=
  ⟨[("aoa:recency", [("a.py", 100), ("b.py", 100)]),
    ("aoa:frequency", [("a.py", 1), ("b.py", 1)])], []⟩

theorem c5_build : Scorer.buildFileScores c5Store [] 100 =
    [("b.py", ⟨100, 100, []⟩), ("a.py", ⟨100, 100, []⟩)] := by
  have hrec : c5Store.zrevrangeAll RedisClient.PREFIX_RECENCY =
      [("b.py", 100), ("a.py", 100)] := by decide
  have hfreq : c5Store.zrevrangeAll RedisClient.PREFIX_FREQUENCY =
      [("b.py", 1), ("a.py", 1)] := by decide
  have hne : ("b.py" : String) ≠ "a.py" := by decide
  norm_num [Scorer.buildFileScores, Scorer.pyMaxD, hrec, hfreq, dget, dset,
    Scorer.RECENCY_HALF_LIFE, Real.exp_zero, hne]

theorem c5_scored :
    (Scorer.buildFileScores c5Store [] 100).map
      (fun e => (e.1, e.2, Scorer.composite [] Scorer.DEFAULT_WEIGHTS e.2)) =
    [("b.py", ⟨100, 100, []⟩, (70 : ℝ)),
      ("a.py", ⟨100, 100, []⟩, (70 : ℝ))] := by
  rw [c5_build]
  norm_num [Scorer.composite, Scorer.DEFAULT_WEIGHTS]

theorem c5_pairs :
    Scorer.rankedPairs c5Store [] 10 100 Scorer.DEFAULT_WEIGHTS =
    [("b.py", ⟨100, 100, []⟩, (70 : ℝ)),
      ("a.py", ⟨100, 100, []⟩, (70 : ℝ))] := by
  simp only [Scorer.rankedPairs, c5_build]
  norm_num [Scorer.composite, Scorer.DEFAULT_WEIGHTS, pySortRevBy, pyInsertRevBy]

/-- The ordering the claim states, written from its words: composite
descending, ties by recency (more recent first), then file key
lexicographically ascending. -/
def SpecC5Ordered (l : List (String × Scorer.ScoresRec × ℝ)) : Prop :=
  l.Pairwise (fun x y =>
    y.2.2 < x.2.2 ∨
    (x.2.2 = y.2.2 ∧
      (y.2.1.recency < x.2.1.recency ∨
        (x.2.1.recency = y.2.1.recency ∧
          (strLt x.1 y.1 = true ∨ x.1 = y.1)))))

/-- C5 counterexample: with `a.py` and `b.py` tied on composite and
recency, the code returns `[b.py, a.py]` (the `ZREVRANGE` reverse-
lexicographic tie order), violating the claimed lexicographic tie-break,
which demands `a.py` first. -/
theorem C5_counterexample :
    (Scorer.rankedPairs c5Store [] 10 100 Scorer.DEFAULT_WEIGHTS).map
      (fun e => e.1) = ["b.py", "a.py"] ∧
    ¬ SpecC5Ordered
      (Scorer.rankedPairs c5Store [] 10 100 Scorer.DEFAULT_WEIGHTS) := by
  constructor
  · rw [c5_pairs]
    rfl
  · rw [c5_pairs]
    intro hord
    unfold SpecC5Ordered at hord
    rcases List.pairwise_cons.mp hord with ⟨hrel, _⟩
    rcases hrel _ (List.mem_cons_self _ _) with h1 | ⟨_, h2⟩
    · exact lt_irrefl _ h1
    · rcases h2 with h3 | ⟨_, h4⟩
      · exact lt_irrefl _ h3
      · rcases h4 with h5 | h6
        · exact absurd h5 (by decide)
        · exact absurd h6 (by decide)

/-- Witness for C5: on the tied two-file store, the stability clause applies
to the concrete pair and keeps the score-map order in the sorted list. -/
theorem C5_ranked_files_order_witness :
    [(("b.py" : String), (⟨100, 100, []⟩ : Scorer.ScoresRec), (70 : ℝ)),
      ("a.py", ⟨100, 100, []⟩, (70 : ℝ))].Sublist
      (pySortRevBy (fun e => e.2.2)
        ((Scorer.buildFileScores c5Store [] 100).map
          (fun e =>
            (e.1, e.2, Scorer.composite [] Scorer.DEFAULT_WEIGHTS e.2)))) := by
  apply (C5_ranked_files_order c5Store [] 10 100 Scorer.DEFAULT_WEIGHTS).2.2
  · rw [c5_scored]
  · exact le_refl (70 : ℝ)

/-! ## C1 — project isolation -/

/-- C1 (corrected): isolation holds in the intent graph — an intent record
stored under a project key other than `p` leaves project `p`'s bucket
untouched, so the intent queries (which do carry a project id) see only
data recorded under their project — but the scorer state consulted by
`predict` is not namespaced per project: `predict` reads only the shared
Redis store (two system states with equal stores yield identical
predictions, whatever projects are registered or what the intent graph
holds), and a `/rank/record` call writes that single store identically
whether or not any project is registered (registration itself never touches
it); hence a predict call with no project id can return files recorded
while a registered project with a non-empty id was active. -/
theorem C1_project_isolation :
    (∀ (idx : IntentIndex) (tool : String) (files tags : List String)
      (sess : String) (tu : Option String) (pid : Option String)
      (fsz : List (String × ℤ)) (os : Option ℤ) (now : ℤ) (p : String),
      IntentIndex.project_key pid ≠ p →
      (idx.record tool files tags sess tu pid fsz os now).getProj p =
        idx.getProj p) ∧
    (∀ (s s₂ : SysState), s.kv = s₂.kv →
      ∀ (all_tags : List String) (limit : ℕ) (fp : String) (now : ℚ)
        (w : Scorer.Weights),
      s.predict all_tags limit fp now w = s₂.predict all_tags limit fp now w) ∧
    (∀ (s : SysState) (p f : String) (tags : List String) (now : ℤ),
      ((s.register_project p).post_rank_record f tags now).kv =
        (s.post_rank_record f tags now).kv ∧
      (s.register_project p).kv = s.kv) := by
  refine ⟨?_, ?_, ?_⟩
  · intro idx tool files tags sess tu pid fsz os now p h
    simp only [IntentIndex.record, IntentIndex.getProj]
    rw [dget_dset_ne _ _ _ _ (Ne.symm h)]
  · intro s s₂ h all_tags limit fp now w
    simp only [SysState.predict, h]
  · intro s p f tags now
    exact ⟨rfl, rfl⟩

/-- Witness for C1: a record under project `Q` leaves project `P`'s bucket
empty, and registering `P` changes no prediction. -/
theorem C1_project_isolation_witness :
    IntentIndex.project_key (some "Q") ≠ "P" ∧
    ((IntentIndex.empty.record "Read" ["x.py"] ["t"] "S" none (some "Q") []
        none 5).getProj "P" = IntentIndex.empty.getProj "P") ∧
    ((SysState.empty.register_project "P").predict ["t"] 3 "" 100
        Scorer.DEFAULT_WEIGHTS =
      SysState.empty.predict ["t"] 3 "" 100 Scorer.DEFAULT_WEIGHTS) :=
  ⟨by decide,
    C1_project_isolation.1 IntentIndex.empty "Read" ["x.py"] ["t"] "S" none
      (some "Q") [] none 5 "P" (by decide),
    C1_project_isolation.2.1 (SysState.empty.register_project "P")
      SysState.empty rfl ["t"] 3 "" 100 Scorer.DEFAULT_WEIGHTS⟩

/-- The C1 counterexample trace: project `P` is registered, an intent for
`app.py` is posted under `P`, and the capture hook records the access
(`POST /rank/record`, which carries no project id). -/
def sC1 : SysState :=
  ((SysState.empty.register_project "P").post_intent "Read" ["app.py"]
      ["api"] "S" (some "P") 100).post_rank_record "app.py" ["api"] 100

/-- The Redis store after the trace: single global keys, no project
component anywhere. -/
def c1Kv : RedisStore :=
  ⟨[("aoa:recency", [("app.py", 100)]),
    ("aoa:frequency", [("app.py", 1)]),
    ("aoa:tag:api", [("app.py", 1)])],
   [("aoa:first_seen:app.py", 100)]⟩

theorem c1_kv : sC1.kv = c1Kv := by
  have happ : RedisClient.PREFIX_TAG ++ ":" ++ "api" = "aoa:tag:api" := by
    decide
  have h1 : RedisClient.PREFIX_RECENCY ≠ RedisClient.PREFIX_FREQUENCY := by
    decide
  have h2 : RedisClient.PREFIX_RECENCY ≠ ("aoa:tag:api" : String) := by decide
  have h3 : RedisClient.PREFIX_FREQUENCY ≠ ("aoa:tag:api" : String) := by
    decide
  norm_num [sC1, SysState.post_rank_record, SysState.post_intent,
    SysState.register_project, SysState.empty, Scorer.record_access,
    RedisStore.zadd, RedisStore.zincrby, RedisStore.setnx, RedisStore.zscore,
    RedisStore.zsetOf, emptyStore, dget, dset, happ, h1, h2, h3, c1Kv]
  exact ⟨⟨by decide, by decide⟩, by decide⟩

theorem c1_build : Scorer.buildFileScores c1Kv [] 100 =
    [("app.py", ⟨100, 100, []⟩)] := by
  have hrec : c1Kv.zrevrangeAll RedisClient.PREFIX_RECENCY =
      [("app.py", 100)] := by decide
  have hfreq : c1Kv.zrevrangeAll RedisClient.PREFIX_FREQUENCY =
      [("app.py", 1)] := by decide
  norm_num [Scorer.buildFileScores, Scorer.pyMaxD, hrec, hfreq, dget, dset,
    Scorer.RECENCY_HALF_LIFE, Real.exp_zero]

theorem c1_pairs :
    Scorer.rankedPairs c1Kv [] 10 100 Scorer.DEFAULT_WEIGHTS =
    [("app.py", ⟨100, 100, []⟩, (70 : ℝ))] := by
  simp only [Scorer.rankedPairs, c1_build]
  norm_num [Scorer.composite, Scorer.DEFAULT_WEIGHTS, pySortRevBy,
    pyInsertRevBy]

theorem c1_predict :
    (sC1.predict [] 5 "" 100 Scorer.DEFAULT_WEIGHTS).map Prod.fst =
      ["app.py"] := by
  simp only [SysState.predict, c1_kv]
  norm_num [Predict.predict_files, Scorer.get_ranked_files, c1_pairs,
    Scorer.mkEntry, pySortRevBy, pyInsertRevBy, dget]

/-- C1 counterexample: after the trace, `P` is a registered project with a
non-empty id and `app.py` is data recorded under `P` (it is in `P`'s intent
bucket, and the access record was made while working in `P`), yet the
predict call carrying no project id returns `app.py`: the scorer state it
consults is a single shared namespace, not per-project. -/
theorem C1_counterexample :
    "P" ∈ sC1.projects ∧ ("P" : String) ≠ "" ∧
    "app.py" ∈ sC1.projectFiles "P" ∧
    "app.py" ∈ (sC1.predict [] 5 "" 100 Scorer.DEFAULT_WEIGHTS).map
      Prod.fst := by
  refine ⟨by decide, by decide, by decide, ?_⟩
  rw [c1_predict]
  exact List.mem_singleton.mpr rfl

end AOA
